import Mathlib

/-!
Shallow embedding of the BOM resolution / aggregation engine of the
`xero-invoice-orderer` repository (package `service`, plus the purchase-order
batch steps of `createPurchaseOrdersHandler`).

Go `float64` quantities are modelled as `ℚ` (the code only multiplies,
divides and compares them, all exact here); Go `int` is modelled as `ℤ`.
Database / Xero lookups are modelled as pure collaborator functions that can
signal an infrastructure failure through `Except String`.
-/

namespace XeroBOM

/-- `BOMNode` from the source: a part/assembly node carrying the effective
quantity (multiplied up the tree). -/
inductive BOMNode where
  | mk (partID : String) (name : String) (quantity : ℚ) (isAssembly : Bool)
      (children : List BOMNode)

def BOMNode.partID : BOMNode → String
  | .mk p _ _ _ _ => p

def BOMNode.name : BOMNode → String
  | .mk _ nm _ _ _ => nm

def BOMNode.quantity : BOMNode → ℚ
  | .mk _ _ q _ _ => q

def BOMNode.isAssembly : BOMNode → Bool
  | .mk _ _ _ a _ => a

def BOMNode.children : BOMNode → List BOMNode
  | .mk _ _ _ _ cs => cs

/-- The zero value `BOMNode{}` returned by the Go code on failure paths. -/
def emptyNode : BOMNode := .mk "" "" 0 false []

/-- `RootItem` from the source: an invoice line root for resolution. -/
structure RootItem where
  partID : String
  name : String
  quantity : ℚ
deriving DecidableEq

/-- The component-lookup collaborators used by `ResolveInvoiceBOM`:
`getItem` (Xero item name + existence), `hasContact` (purchase mapping
present), `getChildren` (component edges with integer multipliers).
`Except.error` is an infrastructure failure (`err != nil` in Go). -/
structure Env where
  getItem : String → Except String (String × Bool)
  hasContact : String → Except String Bool
  getChildren : String → Except String (List (String × Int))

/-- Result of one `dfs` frame: the Go quadruple
`(BOMNode, errMsg, ok, err)` plus the visiting set (the Go code mutates a
shared `map[stackKey]bool`; here the set is threaded explicitly). -/
structure DfsRet where
  node : BOMNode
  msg : String
  ok : Bool
  err : Option String
  vis : List String

/-- Result state of the child loop inside `dfs`. -/
structure KidsRet where
  children : List BOMNode
  msg : String
  ok : Bool
  err : Option String
  vis : List String

/-- The `for _, pair := range children` loop of `dfs`: recurse into each child
with quantity `qty * multiplier`, aborting the frame on the first failure. -/
def dfsKids (rec : String → String → ℚ → List String → DfsRet) (qty : ℚ) :
    List (String × Int) → List String → KidsRet
  | [], vis => ⟨[], "", true, none, vis⟩
  | (childID, mult) :: rest, vis =>
    let r := rec childID "" (qty * (mult : ℚ)) vis
    match r.err with
    | some e => ⟨[], "", false, some e, r.vis⟩
    | none =>
      if r.msg ≠ "" then ⟨[], r.msg, false, none, r.vis⟩
      else if r.ok = false then ⟨[], "unexpected resolve failure", false, none, r.vis⟩
      else
        let k := dfsKids rec qty rest r.vis
        ⟨r.node :: k.children, k.msg, k.ok, k.err, k.vis⟩

/-- The recursive `dfs` of `ResolveInvoiceBOM`.

The Go function carries the current `depth` and aborts when
`depth > maxDepth`; here `fuel = maxDepth + 1 - depth` is the remaining
allowed depth, so the abort condition is exactly `fuel = 0` (the root call at
`depth = 1` uses `fuel = maxDepth`).  The Go cycle guard inserts the id into
the shared visiting map after the depth/cycle checks and removes it again via
`defer` on every return path; both mutations appear explicitly below. -/
def dfs (env : Env) : Nat → String → String → ℚ → List String → DfsRet
  | 0, id, _, _, vis =>
    ⟨emptyNode,
      "max depth exceeded while resolving item " ++ id ++ " (possible circular reference)",
      false, none, vis⟩
  | fuel + 1, id, displayName, qty, vis =>
    if vis.contains id then
      ⟨emptyNode, "circular parent/child relationship detected at " ++ id, false, none, vis⟩
    else
      let vis1 := id :: vis
      match env.getItem id with
      | .error e => ⟨emptyNode, "", false, some e, vis1.erase id⟩
      | .ok (name, found) =>
        if found = false then
          ⟨emptyNode, "item " ++ id ++ " not found in Xero", false, none, vis1.erase id⟩
        else
          let dn := if displayName = "" then name else displayName
          match env.hasContact id with
          | .error e => ⟨emptyNode, "", false, some e, vis1.erase id⟩
          | .ok true =>
            ⟨.mk id dn qty false [], "", true, none, vis1.erase id⟩
          | .ok false =>
            match env.getChildren id with
            | .error e => ⟨emptyNode, "", false, some e, vis1.erase id⟩
            | .ok cs =>
              if cs.isEmpty then
                ⟨emptyNode, "item " ++ id ++ " has no supplier contact and no subcomponents",
                  false, none, vis1.erase id⟩
              else
                let k := dfsKids (dfs env fuel) qty cs vis1
                match k.err with
                | some e => ⟨emptyNode, "", false, some e, k.vis.erase id⟩
                | none =>
                  if k.ok = false then ⟨emptyNode, k.msg, false, none, k.vis.erase id⟩
                  else ⟨.mk id dn qty true k.children, "", true, none, k.vis.erase id⟩

/-- Result of `ResolveInvoiceBOM`: `(trees, message, err)`. -/
structure ResolveRet where
  trees : List BOMNode
  msg : String
  err : Option String

/-- The `for _, r := range roots` loop of `ResolveInvoiceBOM`: any
business message or infrastructure error short-circuits with no trees. -/
def resolveLoop (env : Env) (maxDepth : Nat) :
    List RootItem → List String → List BOMNode → ResolveRet
  | [], _, acc => ⟨acc, "", none⟩
  | r :: rs, vis, acc =>
    let d := dfs env maxDepth r.partID r.name r.quantity vis
    match d.err with
    | some e => ⟨[], "", some e⟩
    | none =>
      if d.msg ≠ "" ∨ d.ok = false then ⟨[], d.msg, none⟩
      else resolveLoop env maxDepth rs d.vis (acc ++ [d.node])

/-- `ResolveInvoiceBOM` (pure core, with the db/Xero plumbing abstracted into
`Env`): expands invoice roots into trees of purchasable leaves.  The visiting
set is created fresh for the invocation. -/
def ResolveInvoiceBOM (env : Env) (maxDepth : Nat) (roots : List RootItem) : ResolveRet :=
  resolveLoop env maxDepth roots [] []

/-- `LeafTotal` from the source: a flat total per purchasable part. -/
structure LeafTotal where
  partID : String
  name : String
  quantity : ℚ
deriving DecidableEq

mutual

/-- The per-assembly `norm` closure of `BuildPerAssemblyBOM`: per-assembly
quantity is `node.Quantity / parentEffective` when `parentEffective > 0`,
otherwise the node's quantity unchanged; children are normalised against this
node's (raw) effective quantity. -/
def norm : BOMNode → ℚ → BOMNode
  | .mk p nm q a cs, parentEffective =>
    .mk p nm (if 0 < parentEffective then q / parentEffective else q) a (normList cs q)

def normList : List BOMNode → ℚ → List BOMNode
  | [], _ => []
  | c :: cs, parentEffective => norm c parentEffective :: normList cs parentEffective

end

/-- The loop body of `BuildPerAssemblyBOM`: the root keeps the invoice
quantity from its demand line, its children are normalised against the
root's raw effective quantity. -/
def perAssyRoot (b : BOMNode) (r : RootItem) : BOMNode :=
  match b with
  | .mk p nm q a cs => .mk p nm r.quantity a (normList cs q)

/-- `BuildPerAssemblyBOM`: root nodes show the invoice quantity as-is, and the
children are normalised against the root's effective quantity.  The Go loop
runs to `min(len(bom), len(roots))`, which `List.zip` reproduces. -/
def BuildPerAssemblyBOM (bom : List BOMNode) (roots : List RootItem) : List BOMNode :=
  (bom.zip roots).map fun br => perAssyRoot br.1 br.2

/-- Go's `math.Round`: round to the nearest integer, half away from zero. -/
def goRound (q : ℚ) : ℚ :=
  if q < 0 then -((⌊-q + 1/2⌋ : ℤ) : ℚ) else ((⌊q + 1/2⌋ : ℤ) : ℚ)

/-- One update of the aggregation map `agg[partID]`: add to an existing
total, or create the entry with the node's display name.  The Go map is
modelled as a list of entries in insertion order. -/
def aggInsert (acc : List LeafTotal) (pid nm : String) (q : ℚ) : List LeafTotal :=
  if acc.any (fun lt => lt.partID == pid) then
    acc.map fun lt => if lt.partID == pid then ⟨lt.partID, lt.name, lt.quantity + q⟩ else lt
  else acc ++ [⟨pid, nm, q⟩]

mutual

/-- `multWalk` of `AggregateLeafTotals`: walk a per-assembly tree with a
running multiplier; assemblies with positive quantity multiply it, leaves add
`mul * quantity` to the aggregation map. -/
def multWalk : BOMNode → ℚ → List LeafTotal → List LeafTotal
  | .mk p nm q a cs, mul, acc =>
    if a = true then
      let nextMul := if 0 < q then mul * q else mul
      multWalkList cs nextMul acc
    else aggInsert acc p nm (mul * q)

def multWalkList : List BOMNode → ℚ → List LeafTotal → List LeafTotal
  | [], _, acc => acc
  | c :: cs, mul, acc => multWalkList cs mul (multWalk c mul acc)

end

/-- `AggregateLeafTotals`: multiply quantities down the per-assembly trees and
round every total to the nearest integer at the end.  The final Go `range`
over the map is modelled as insertion order. -/
def AggregateLeafTotals (perAssy : List BOMNode) : List LeafTotal :=
  (perAssy.foldl (fun acc root => multWalk root 1 acc) []).map
    fun lt => ⟨lt.partID, lt.name, goRound lt.quantity⟩

mutual

/-- The direct leaf walk of `getInvoiceHandler` (step 4): leaves add their
effective quantity to the aggregation map, assemblies only recurse. -/
def dwalk : BOMNode → List LeafTotal → List LeafTotal
  | .mk p nm q a cs, acc =>
    if a = false then aggInsert acc p nm q
    else dwalkList cs acc

def dwalkList : List BOMNode → List LeafTotal → List LeafTotal
  | [], acc => acc
  | c :: cs, acc => dwalkList cs (dwalk c acc)

end

/-- The handler's direct aggregation over raw effective-quantity trees,
including the final rounding. -/
def directLeafTotals (bom : List BOMNode) : List LeafTotal :=
  (bom.foldl (fun acc root => dwalk root acc) []).map
    fun lt => ⟨lt.partID, lt.name, goRound lt.quantity⟩

/-- `ShoppingRow` from the source: a row from `shopping_list`. -/
structure ShoppingRow where
  listID : Int
  itemID : String
  quantity : Int
deriving DecidableEq

/-- `ContactItem` from the source: an item assigned to a contact; `listIDs`
tracks the source rows. -/
structure ContactItem where
  itemID : String
  quantity : Int
  listIDs : List Int
deriving DecidableEq

/-- Outcome of the `items_contacts` lookup
(`SELECT contact_id ... LIMIT 1`): a mapping, no matching row
(`pgx.ErrNoRows`), or an infrastructure failure of the query itself. -/
inductive LookupRes where
  | found (contactID : String)
  | noRows
  | failure (e : String)
deriving DecidableEq

/-- Collaborator state for `GroupShoppingItemsByContact`. -/
structure GroupEnv where
  contactFor : String → LookupRes

/-- The inner-map update of `GroupShoppingItemsByContact`: merge a row into a
contact's item list — sum the quantity and collect the list id when the item
exists, create the entry otherwise. -/
def insertItem (items : List ContactItem) (r : ShoppingRow) : List ContactItem :=
  if items.any (fun it => it.itemID == r.itemID) then
    items.map fun it =>
      if it.itemID == r.itemID then
        ⟨it.itemID, it.quantity + r.quantity, it.listIDs ++ [r.listID]⟩
      else it
  else items ++ [⟨r.itemID, r.quantity, [r.listID]⟩]

/-- Contact groups in insertion order: contact account number to its items.
The Go nested maps (and the final `range`) are modelled in insertion order. -/
def addRow (g : List (String × List ContactItem)) (cid : String) (r : ShoppingRow) :
    List (String × List ContactItem) :=
  if g.any (fun p => p.1 == cid) then
    g.map fun p => if p.1 == cid then (p.1, insertItem p.2 r) else p
  else g ++ [(cid, [⟨r.itemID, r.quantity, [r.listID]⟩])]

/-- The row loop of `GroupShoppingItemsByContact`: any lookup that does not
yield a contact id (no mapping row, or a query failure — the Go code checks
only `err != nil`) aborts the whole grouping with the business message. -/
def groupRows (env : GroupEnv) : List ShoppingRow → List (String × List ContactItem) →
    Except String (List (String × List ContactItem))
  | [], g => .ok g
  | r :: rs, g =>
    match env.contactFor r.itemID with
    | .found cid => groupRows env rs (addRow g cid r)
    | _ => .error ("no contact mapping found for item " ++ r.itemID)

/-- `GroupShoppingItemsByContact` (pure core): empty input returns `nil`
groups; otherwise fold the rows, aborting on the first failed lookup. -/
def GroupShoppingItemsByContact (env : GroupEnv) (rows : List ShoppingRow) :
    Except String (List (String × List ContactItem)) :=
  if rows.isEmpty then .ok [] else groupRows env rows []

/-- `POItem` from `pkg/xero`: one purchase-order line. -/
structure POItem where
  itemCode : String
  quantity : Int
  description : String
deriving DecidableEq

/-- Collaborators of the purchase-order batch
(`createPurchaseOrdersHandler` steps 3 and 4). -/
structure POEnv where
  getContactID : String → Except String String
  getItemName : String → Except String (String × Bool)
  createPO : String → List POItem → Except String String
  markOrdered : List Int → Except String Unit

/-- Observable outcome of the batch: purchase orders actually created, list
ids that were marked ordered, the user-facing cookie message, and the
hard-failure channel (`http.Error`). -/
structure BatchOut where
  orders : List (String × List POItem)
  marked : List Int
  msg : String
  httpErr : Option String

/-- Best-effort description lookup: use the Xero item name when the lookup
succeeds, is found and non-empty; otherwise fall back to the item code. -/
def descFor (env : POEnv) (code : String) : String :=
  match env.getItemName code with
  | .ok (nm, true) => if nm ≠ "" then nm else code
  | _ => code

/-- The per-contact loop of `createPurchaseOrdersHandler`: resolve the
contact id, build the PO lines (collecting list ids), create the purchase
order; any failure returns immediately, before anything is marked.  After the
loop, mark all collected list ids (skipped when there are none). -/
def poLoop (env : POEnv) : List (String × List ContactItem) → List Int →
    List (String × List POItem) → BatchOut
  | [], ids, orders =>
    if ids.isEmpty then
      ⟨orders, [],
        "Created " ++ toString orders.length ++ " purchase order(s), " ++
          toString ids.length ++ " shopping list rows marked ordered", none⟩
    else
      match env.markOrdered ids with
      | .error e => ⟨orders, [], "", some ("failed to mark shopping list items ordered: " ++ e)⟩
      | .ok _ =>
        ⟨orders, ids,
          "Created " ++ toString orders.length ++ " purchase order(s), " ++
            toString ids.length ++ " shopping list rows marked ordered", none⟩
  | (accountNumber, items) :: rest, ids, orders =>
    match env.getContactID accountNumber with
    | .error e =>
      ⟨orders, [], "Contact lookup failed for " ++ accountNumber ++ ": " ++ e, none⟩
    | .ok contactID =>
      if contactID = "" then
        ⟨orders, [], "No ContactID found for " ++ accountNumber ++ " in Xero", none⟩
      else
        let poItems := items.map fun it => POItem.mk it.itemID it.quantity (descFor env it.itemID)
        let ids1 := ids ++ items.flatMap (fun it => it.listIDs)
        match env.createPO contactID poItems with
        | .error e =>
          ⟨orders, [], "Failed to create PO for contact " ++ accountNumber ++ ": " ++ e, none⟩
        | .ok _ => poLoop env rest ids1 (orders ++ [(contactID, poItems)])

/-- Steps 1–4 of `createPurchaseOrdersHandler` given the unordered rows:
empty list short-circuits; a grouping error becomes the cookie message with
no orders created; otherwise run the per-contact loop. -/
def runPurchaseOrderBatch (genv : GroupEnv) (penv : POEnv) (rows : List ShoppingRow) : BatchOut :=
  if rows.isEmpty then ⟨[], [], "No unordered shopping list items found.", none⟩
  else
    match GroupShoppingItemsByContact genv rows with
    | .error e => ⟨[], [], "Failed to group items by contact: " ++ e, none⟩
    | .ok grouped => poLoop penv grouped [] []

/-- Strong induction principle for the nested inductive `BOMNode`. -/
theorem BOMNode.strongInd (P : BOMNode → Prop)
    (h : ∀ p nm q a cs, (∀ c ∈ cs, P c) → P (.mk p nm q a cs)) : ∀ n, P n := by
  have key : ∀ k (n : BOMNode), sizeOf n < k → P n := by
    intro k
    induction k with
    | zero => intro n hn; exact absurd hn (Nat.not_lt_zero _)
    | succ k ih =>
      intro n hn
      match n with
      | .mk p nm q a cs =>
        apply h
        intro c hc
        apply ih
        have h1 : sizeOf c < sizeOf cs := List.sizeOf_lt_of_mem hc
        have h2 : sizeOf cs < sizeOf (BOMNode.mk p nm q a cs) := by
          simp only [BOMNode.mk.sizeOf_spec]
          omega
        omega
  intro n
  exact key (sizeOf n + 1) n (Nat.lt_succ_self _)

/-- The node found by following a list of child indices down a tree. -/
def nodeAt : BOMNode → List Nat → Option BOMNode
  | n, [] => some n
  | n, j :: p =>
    match n.children.get? j with
    | some c => nodeAt c p
    | none => none

/-- Quantity coherence of a produced tree relative to the component graph:
every assembly node's children line up with its `getChildren` edges and carry
quantity `parent.quantity * multiplier`. -/
inductive WFQ (env : Env) : BOMNode → Prop where
  | intro (n : BOMNode)
      (hassy : n.isAssembly = true →
        ∃ cs, env.getChildren n.partID = .ok cs ∧ n.children.length = cs.length ∧
          ∀ (j : Nat) (c : BOMNode) (pr : String × Int),
            n.children.get? j = some c → cs.get? j = some pr →
            c.quantity = n.quantity * ((pr.2 : ℤ) : ℚ))
      (hkids : ∀ c ∈ n.children, WFQ env c) : WFQ env n

/-- `Descend env t m n`: `n` is reached from `t` by following child edges
whose multipliers (read off the component graph) have product `m`. -/
inductive Descend (env : Env) : BOMNode → ℚ → BOMNode → Prop where
  | refl (t : BOMNode) : Descend env t 1 t
  | step {t p c : BOMNode} {m : ℚ} {cs : List (String × Int)} {pr : String × Int} {j : Nat}
      (hd : Descend env t m p) (ha : p.isAssembly = true)
      (hc : env.getChildren p.partID = .ok cs)
      (hj : p.children.get? j = some c) (hj2 : cs.get? j = some pr) :
      Descend env t (m * ((pr.2 : ℤ) : ℚ)) c

mutual

/-- Every assembly node in the tree has strictly positive quantity. -/
def assyPos : BOMNode → Bool
  | .mk _ _ q a cs => (!a || decide (0 < q)) && assyPosList cs

def assyPosList : List BOMNode → Bool
  | [] => true
  | c :: cs => assyPos c && assyPosList cs

end

mutual

/-- Every node that has children is flagged as an assembly (true of all
trees produced by the resolver, whose leaves are childless). -/
def proper : BOMNode → Bool
  | .mk _ _ _ a cs => (cs.isEmpty || a) && properList cs

def properList : List BOMNode → Bool
  | [] => true
  | c :: cs => proper c && properList cs

end

mutual

/-- Leaf occurrences of a raw effective-quantity tree, in walk order. -/
def leafOcc : BOMNode → List LeafTotal
  | .mk p nm q a cs => if a = false then [⟨p, nm, q⟩] else leafOccList cs

def leafOccList : List BOMNode → List LeafTotal
  | [] => []
  | c :: cs => leafOcc c ++ leafOccList cs

end

mutual

/-- Leaf contributions of `multWalk` in walk order, with the running
multiplier made explicit. -/
def mulOcc : BOMNode → ℚ → List LeafTotal
  | .mk p nm q a cs, mul =>
    if a = true then mulOccList cs (if 0 < q then mul * q else mul)
    else [⟨p, nm, mul * q⟩]

def mulOccList : List BOMNode → ℚ → List LeafTotal
  | [], _ => []
  | c :: cs, mul => mulOcc c mul ++ mulOccList cs mul

end

mutual

/-- Modelled from the spec: the "manually multiplied back down" reading of a
per-assembly tree — each node's effective quantity is its per-assembly
quantity times the parent's effective quantity (the root's is its own
quantity, obtained by passing parent effective 1). -/
def multiplyBackDown : BOMNode → ℚ → BOMNode
  | .mk p nm q a cs, parentEff =>
    .mk p nm (q * parentEff) a (multiplyBackDownList cs (q * parentEff))

def multiplyBackDownList : List BOMNode → ℚ → List BOMNode
  | [], _ => []
  | c :: cs, parentEff => multiplyBackDown c parentEff :: multiplyBackDownList cs parentEff

end

/-- Example component graph: assembly `A` requires three of the purchasable
leaf `B`. -/
def envSimple : Env :=
  { getItem := fun id => .ok (id, decide (id = "A" ∨ id = "B"))
    hasContact := fun id => .ok (decide (id = "B"))
    getChildren := fun id => .ok (if id = "A" then [("B", 3)] else []) }

/-- Example component graph with a cycle: `A` requires `B`, `B` requires `A`,
and nothing is purchasable. -/
def envCyc : Env :=
  { getItem := fun id => .ok (id, true)
    hasContact := fun _ => .ok false
    getChildren := fun id => .ok (if id = "A" then [("B", 2)] else [("A", 1)]) }

/-- Example diamond graph: `R` requires `A` and `B`, both of which require
the purchasable leaf `L` — `L` sits on two sibling branches but never twice
on one path. -/
def envDiamond : Env :=
  { getItem := fun id => .ok (id, true)
    hasContact := fun id => .ok (decide (id = "L"))
    getChildren := fun id =>
      .ok (if id = "R" then [("A", 2), ("B", 5)]
        else if id = "A" ∨ id = "B" then [("L", 3)] else []) }

/-- Resolved trees for the spec's leaf-total example: roots with quantities 2
and 3, each requiring the same leaf with per-unit multiplier 3. -/
def bomEx : List BOMNode :=
  [.mk "R1" "R1" 2 true [.mk "L" "Leaf" 6 false []],
   .mk "R2" "R2" 3 true [.mk "L" "Leaf" 9 false []]]

/-- Root demand lines paired with `bomEx`. -/
def rootsEx : List RootItem := [⟨"R1", "R1", 2⟩, ⟨"R2", "R2", 3⟩]

/-- A tree whose root (an assembly) has negative effective quantity. -/
def bomNeg : List BOMNode := [.mk "A" "A" (-2) true [.mk "B" "B" 4 false []]]

/-- Root line paired with `bomNeg`. -/
def rootsNeg : List RootItem := [⟨"A", "A", -2⟩]

/-- Item-to-contact mapping for the spec's grouping example. -/
def genvEx : GroupEnv :=
  ⟨fun id => if id = "P-003" then .found "C-BBB"
    else if id = "P-001" ∨ id = "P-002" then .found "C-AAA" else .noRows⟩

/-- The spec's four shopping-list rows. -/
def rowsEx : List ShoppingRow := [⟨1, "P-001", 2⟩, ⟨2, "P-001", 3⟩, ⟨3, "P-002", 4⟩, ⟨4, "P-003", 1⟩]

/-- A mapping table whose lookup fails with an infrastructure error for item
`X` (which does have a mapping row — the query itself fails). -/
def genvInfra : GroupEnv :=
  ⟨fun id => if id = "X" then .failure "connection timeout" else .found "C-AAA"⟩

/-- A single row demanding item `X`. -/
def rowsInfra : List ShoppingRow := [⟨1, "X", 2⟩]

/-- Purchase-order collaborators for which everything succeeds. -/
def penvOK : POEnv :=
  { getContactID := fun acct => .ok ("ID-" ++ acct)
    getItemName := fun code => .ok ("Name of " ++ code, true)
    createPO := fun _ _ => .ok "PO-1"
    markOrdered := fun _ => .ok () }

/-- Purchase-order collaborators for which creating the purchase order of
contact `C-BBB` fails. -/
def penvFailB : POEnv :=
  { getContactID := fun acct => .ok ("ID-" ++ acct)
    getItemName := fun code => .ok ("Name of " ++ code, true)
    createPO := fun cid _ => if cid = "ID-C-BBB" then .error "boom" else .ok "PO-1"
    markOrdered := fun _ => .ok () }

/-- Whether an `items_contacts` lookup yielded a mapping. -/
def isFound : LookupRes → Bool
  | .found _ => true
  | _ => false

/-- The item list of one contact group, keyed by account number. -/
def itemsFor (g : List (String × List ContactItem)) (cid : String) :
    Option (List ContactItem) :=
  (g.find? (fun p => p.1 == cid)).map (fun p => p.2)

/-- One aggregated entry of the grouping output: contact `cid`, item `pid`. -/
def entryFor (g : List (String × List ContactItem)) (cid pid : String) :
    Option ContactItem :=
  (itemsFor g cid).bind (fun items => items.find? (fun it => it.itemID == pid))

/-- The input rows that contribute to contact `cid`, item `pid`: the rows
demanding `pid` whose item maps to `cid`. -/
def rowsFor (env : GroupEnv) (rows : List ShoppingRow) (cid pid : String) :
    List ShoppingRow :=
  rows.filter fun r =>
    r.itemID == pid && decide (env.contactFor r.itemID = LookupRes.found cid)

/-- Lookup of a total in the aggregation output, keyed by part id. -/
def keyQty (acc : List LeafTotal) (pid : String) : Option ℚ :=
  (acc.find? (fun lt => lt.partID == pid)).map (fun lt => lt.quantity)

/-- Lookup of a display name in the aggregation output, keyed by part id. -/
def keyName (acc : List LeafTotal) (pid : String) : Option String :=
  (acc.find? (fun lt => lt.partID == pid)).map (fun lt => lt.name)

/-- Fold a flat occurrence list into the aggregation map. -/
def collapse (occs : List LeafTotal) (acc : List LeafTotal) : List LeafTotal :=
  occs.foldl (fun a lt => aggInsert a lt.partID lt.name lt.quantity) acc

/-- Sum of the quantities of the occurrences of one part id. -/
def sumFor (occs : List LeafTotal) (pid : String) : ℚ :=
  ((occs.filter (fun lt => lt.partID == pid)).map (fun lt => lt.quantity)).sum

lemma str_append_ne (s t : String) (h : s.length ≠ 0) : s ++ t ≠ "" := by
  intro heq
  have hl := congrArg String.length heq
  simp only [String.length_append] at hl
  have : String.length "" = 0 := rfl
  omega

lemma dfsKids_vis (rec : String → String → ℚ → List String → DfsRet) (q : ℚ)
    (hrec : ∀ id dn q' v, (rec id dn q' v).vis = v) :
    ∀ (cs : List (String × Int)) (vis : List String), (dfsKids rec q cs vis).vis = vis := by
  intro cs
  induction cs with
  | nil => intro vis; rfl
  | cons c rest ih =>
    intro vis
    obtain ⟨cid, mult⟩ := c
    simp only [dfsKids]
    cases herr : (rec cid "" (q * (mult : ℚ)) vis).err with
    | some e => simp only [herr]; exact hrec _ _ _ _
    | none =>
      simp only [herr]
      by_cases hmsg : (rec cid "" (q * (mult : ℚ)) vis).msg ≠ ""
      · simp only [if_pos hmsg]; exact hrec _ _ _ _
      · simp only [if_neg hmsg]
        by_cases hok : (rec cid "" (q * (mult : ℚ)) vis).ok = false
        · simp only [if_pos hok]; exact hrec _ _ _ _
        · simp only [if_neg hok]
          rw [ih, hrec]

lemma dfs_vis (env : Env) :
    ∀ (fuel : Nat) (id dn : String) (q : ℚ) (vis : List String),
      (dfs env fuel id dn q vis).vis = vis := by
  intro fuel
  induction fuel with
  | zero => intro id dn q vis; rfl
  | succ fuel ih =>
    intro id dn q vis
    have hk : ∀ cs, (dfsKids (dfs env fuel) q cs (id :: vis)).vis = id :: vis :=
      fun cs => dfsKids_vis _ _ (fun a b c d => ih a b c d) cs _
    simp only [dfs]
    repeat' split
    all_goals simp [hk, List.erase_cons_head]

lemma str_append3_ne (s t u : String) (h : s.length ≠ 0) : s ++ t ++ u ≠ "" := by
  apply str_append_ne
  simp only [String.length_append]
  omega

lemma dfsKids_fail (rec : String → String → ℚ → List String → DfsRet) (q : ℚ) :
    ∀ (cs : List (String × Int)) (vis : List String), (dfsKids rec q cs vis).ok = false →
      (dfsKids rec q cs vis).msg ≠ "" ∨ (dfsKids rec q cs vis).err ≠ none := by
  intro cs
  induction cs with
  | nil => intro vis h; simp [dfsKids] at h
  | cons c rest ih =>
    intro vis
    obtain ⟨cid, mult⟩ := c
    simp only [dfsKids]
    cases herr : (rec cid "" (q * (mult : ℚ)) vis).err with
    | some e => intro _; right; simp
    | none =>
      by_cases hmsg : (rec cid "" (q * (mult : ℚ)) vis).msg ≠ ""
      · simp only [if_pos hmsg]; intro _; left; exact hmsg
      · simp only [if_neg hmsg]
        by_cases hok : (rec cid "" (q * (mult : ℚ)) vis).ok = false
        · simp only [if_pos hok]; intro _; left; decide
        · simp only [if_neg hok]
          intro h
          exact ih _ h

lemma dfs_fail (env : Env) :
    ∀ (fuel : Nat) (id dn : String) (q : ℚ) (vis : List String),
      (dfs env fuel id dn q vis).ok = false →
      (dfs env fuel id dn q vis).msg ≠ "" ∨ (dfs env fuel id dn q vis).err ≠ none := by
  intro fuel
  induction fuel with
  | zero =>
    intro id dn q vis _
    left
    exact str_append3_ne _ _ _ (by decide)
  | succ fuel ih =>
    intro id dn q vis
    have hkf := dfsKids_fail (dfs env fuel) q
    simp only [dfs]
    repeat' split
    all_goals intro hok
    all_goals solve
      | (refine absurd hok ?_; simp)
      | (left; apply str_append_ne; decide)
      | (left; apply str_append3_ne; decide)
      | (right; simp)
      | (left
         rename_i hkerr hko
         rcases hkf _ _ hko with hm | he
         · exact hm
         · exact absurd hkerr he)

lemma dfsKids_good (env : Env) (rec : String → String → ℚ → List String → DfsRet) (q : ℚ)
    (hrec : ∀ id dn q' v, (rec id dn q' v).ok = true →
      (rec id dn q' v).node.quantity = q' ∧ WFQ env (rec id dn q' v).node) :
    ∀ (cs : List (String × Int)) (vis : List String), (dfsKids rec q cs vis).ok = true →
      (dfsKids rec q cs vis).children.length = cs.length ∧
      ∀ (j : Nat) (c : BOMNode) (pr : String × Int),
        (dfsKids rec q cs vis).children.get? j = some c → cs.get? j = some pr →
        c.quantity = q * ((pr.2 : ℤ) : ℚ) ∧ WFQ env c := by
  intro cs
  induction cs with
  | nil =>
    intro vis _
    refine ⟨rfl, ?_⟩
    intro j c pr h1 h2
    simp at h2
  | cons c0 rest ih =>
    intro vis
    obtain ⟨cid, mult⟩ := c0
    simp only [dfsKids]
    cases herr : (rec cid "" (q * (mult : ℚ)) vis).err with
    | some e => intro h; simp at h
    | none =>
      by_cases hmsg : (rec cid "" (q * (mult : ℚ)) vis).msg ≠ ""
      · simp only [if_pos hmsg]; intro h; simp at h
      · simp only [if_neg hmsg]
        by_cases hok : (rec cid "" (q * (mult : ℚ)) vis).ok = false
        · simp only [if_pos hok]; intro h; simp at h
        · simp only [if_neg hok]
          intro h
          have hko : (dfsKids rec q rest (rec cid "" (q * (mult : ℚ)) vis).vis).ok = true := h
          have hr : (rec cid "" (q * (mult : ℚ)) vis).ok = true := by
            cases hx : (rec cid "" (q * (mult : ℚ)) vis).ok
            · exact absurd hx hok
            · rfl
          obtain ⟨hq1, hw1⟩ := hrec _ _ _ _ hr
          obtain ⟨hlen, hidx⟩ := ih _ hko
          refine ⟨by simpa using hlen, ?_⟩
          intro j c pr h1 h2
          cases j with
          | zero =>
            simp only [List.get?] at h1 h2
            cases h1; cases h2
            exact ⟨hq1, hw1⟩
          | succ j =>
            simp only [List.get?] at h1 h2
            exact hidx j c pr h1 h2

lemma dfs_good (env : Env) :
    ∀ (fuel : Nat) (id dn : String) (q : ℚ) (vis : List String),
      (dfs env fuel id dn q vis).ok = true →
      (dfs env fuel id dn q vis).node.quantity = q ∧ WFQ env (dfs env fuel id dn q vis).node := by
  intro fuel
  induction fuel with
  | zero => intro id dn q vis h; simp [dfs] at h
  | succ fuel ih =>
    intro id dn q vis
    simp only [dfs]
    by_cases hc : vis.contains id = true
    · rw [if_pos hc]; intro h; simp at h
    · rw [if_neg hc]
      cases hgi : env.getItem id with
      | error e => intro h; simp at h
      | ok nf =>
        obtain ⟨name, found⟩ := nf
        dsimp only
        by_cases hf : found = false
        · rw [if_pos hf]; intro h; simp at h
        · rw [if_neg hf]
          cases hhc : env.hasContact id with
          | error e => intro h; simp at h
          | ok b =>
            cases b with
            | true =>
              dsimp only
              intro _
              refine ⟨rfl, WFQ.intro _ ?_ ?_⟩
              · intro ha; simp [BOMNode.isAssembly] at ha
              · intro c hc'; simp [BOMNode.children] at hc'
            | false =>
              dsimp only
              cases hgc : env.getChildren id with
              | error e => intro h; simp at h
              | ok cs =>
                dsimp only
                by_cases hemp : cs.isEmpty
                · rw [if_pos hemp]; intro h; simp at h
                · rw [if_neg hemp]
                  cases hkerr : (dfsKids (dfs env fuel) q cs (id :: vis)).err with
                  | some e => intro h; simp at h
                  | none =>
                    by_cases hko : (dfsKids (dfs env fuel) q cs (id :: vis)).ok = false
                    · rw [if_pos hko]; intro h; simp at h
                    · rw [if_neg hko]
                      intro _
                      have hkt : (dfsKids (dfs env fuel) q cs (id :: vis)).ok = true := by
                        cases hx : (dfsKids (dfs env fuel) q cs (id :: vis)).ok
                        · exact absurd hx hko
                        · rfl
                      obtain ⟨hlen, hidx⟩ :=
                        dfsKids_good env (dfs env fuel) q (fun a b c d => ih a b c d) cs _ hkt
                      refine ⟨rfl, WFQ.intro _ ?_ ?_⟩
                      · intro _
                        exact ⟨cs, hgc, hlen, fun j c pr h1 h2 => (hidx j c pr h1 h2).1⟩
                      · intro c hcmem
                        rcases List.mem_iff_get?.mp hcmem with ⟨j, hj⟩
                        have hjl : j < (dfsKids (dfs env fuel) q cs (id :: vis)).children.length := by
                          rcases List.get?_eq_some.mp hj with ⟨hl, _⟩
                          exact hl
                        have hpr : cs.get? j = some (cs.get ⟨j, hlen ▸ hjl⟩) :=
                          List.get?_eq_some.mpr ⟨hlen ▸ hjl, rfl⟩
                        exact (hidx j c _ hj hpr).2

lemma wfq_descend (env : Env) {t : BOMNode} (hw : WFQ env t) :
    ∀ {m : ℚ} {n : BOMNode}, Descend env t m n → WFQ env n ∧ n.quantity = t.quantity * m := by
  intro m n hd
  induction hd with
  | refl => exact ⟨hw, by ring⟩
  | step hd ha hc hj hj2 ih =>
    obtain ⟨hwp, hqp⟩ := ih
    cases hwp with
    | intro p hassy hkids =>
      rcases hassy ha with ⟨cs', hgc', hlen, hfield⟩
      have hcs : cs' = _ := Except.ok.inj (hgc'.symm.trans hc)
      refine ⟨hkids _ (List.get?_mem hj), ?_⟩
      have := hfield _ _ _ hj (hcs ▸ hj2)
      rw [this, hqp]
      ring

lemma resolveLoop_ok (env : Env) (md : Nat) :
    ∀ (rs : List RootItem) (vis : List String) (acc : List BOMNode),
      (resolveLoop env md rs vis acc).err = none →
      (resolveLoop env md rs vis acc).msg = "" →
      ∃ ts, (resolveLoop env md rs vis acc).trees = acc ++ ts ∧ ts.length = rs.length ∧
        ∀ (j : Nat) (t : BOMNode) (r : RootItem),
          ts.get? j = some t → rs.get? j = some r →
          t.quantity = r.quantity ∧ WFQ env t := by
  intro rs
  induction rs with
  | nil =>
    intro vis acc _ _
    refine ⟨[], by simp [resolveLoop], rfl, ?_⟩
    intro j t r h1 h2
    simp at h1
  | cons r rs ih =>
    intro vis acc
    simp only [resolveLoop]
    cases herr : (dfs env md r.partID r.name r.quantity vis).err with
    | some e => dsimp only; intro h; simp at h
    | none =>
      dsimp only
      by_cases habort : (dfs env md r.partID r.name r.quantity vis).msg ≠ "" ∨
          (dfs env md r.partID r.name r.quantity vis).ok = false
      · rw [if_pos habort]
        intro _ hmsg
        exfalso
        rcases habort with hm | hko
        · exact hm hmsg
        · rcases dfs_fail env md r.partID r.name r.quantity vis hko with hm | he
          · exact hm hmsg
          · exact he herr
      · rw [if_neg habort]
        intro h1 h2
        push_neg at habort
        obtain ⟨hmsg0, hoknf⟩ := habort
        have hok : (dfs env md r.partID r.name r.quantity vis).ok = true := by
          cases hx : (dfs env md r.partID r.name r.quantity vis).ok
          · exact absurd hx hoknf
          · rfl
        obtain ⟨hq, hw⟩ := dfs_good env md r.partID r.name r.quantity vis hok
        obtain ⟨ts, hts, hlen, hgood⟩ := ih _ (acc ++ [(dfs env md r.partID r.name r.quantity vis).node]) h1 h2
        refine ⟨(dfs env md r.partID r.name r.quantity vis).node :: ts, ?_, by simp [hlen], ?_⟩
        · rw [hts]; simp
        · intro j t r' hj1 hj2
          cases j with
          | zero =>
            simp only [List.get?] at hj1 hj2
            cases hj1; cases hj2
            exact ⟨hq, hw⟩
          | succ j =>
            simp only [List.get?] at hj1 hj2
            exact hgood j t r' hj1 hj2

/-- C1: for every successful resolution (`ResolveInvoiceBOM` returns trees and
an empty message), the trees are 1:1 with the roots, every root node's
effective quantity equals its root demand quantity, and every node reached by
following child edges with multiplier product `m` has effective quantity
`rootQuantity * m` — i.e. the root quantity times the product of the edge
multipliers on the path from the root to that node (for leaves this is the
incoming quantity of the recursion at that point). -/
theorem claim_C1_effective_quantities (env : Env) (maxDepth : Nat) (roots : List RootItem)
    (herr : (ResolveInvoiceBOM env maxDepth roots).err = none)
    (hmsg : (ResolveInvoiceBOM env maxDepth roots).msg = "") :
    (ResolveInvoiceBOM env maxDepth roots).trees.length = roots.length ∧
    ∀ (i : Nat) (t : BOMNode) (r : RootItem),
      (ResolveInvoiceBOM env maxDepth roots).trees.get? i = some t →
      roots.get? i = some r →
      t.quantity = r.quantity ∧
      ∀ (m : ℚ) (n : BOMNode), Descend env t m n → n.quantity = r.quantity * m := by
  obtain ⟨ts, hts, hlen, hgood⟩ := resolveLoop_ok env maxDepth roots [] [] herr hmsg
  have htrees : (ResolveInvoiceBOM env maxDepth roots).trees = ts := by
    simpa [ResolveInvoiceBOM] using hts
  constructor
  · rw [htrees, hlen]
  · intro i t r h1 h2
    rw [htrees] at h1
    obtain ⟨hq, hw⟩ := hgood i t r h1 h2
    refine ⟨hq, ?_⟩
    intro m n hd
    have := (wfq_descend env hw hd).2
    rw [this, hq]

/-- Witness for C1 at a concrete component graph (assembly `A`, quantity 2,
containing three units of leaf `B`): the resolution succeeds and returns
exactly one tree. -/
theorem claim_C1_witness :
    (ResolveInvoiceBOM envSimple 12 [⟨"A", "RootA", 2⟩]).trees.length =
      [(⟨"A", "RootA", 2⟩ : RootItem)].length :=
  (claim_C1_effective_quantities envSimple 12 [⟨"A", "RootA", 2⟩]
    (by simp [ResolveInvoiceBOM, resolveLoop, dfs, dfsKids, envSimple])
    (by simp [ResolveInvoiceBOM, resolveLoop, dfs, dfsKids, envSimple])).1

lemma resolveLoop_abort_trees (env : Env) (md : Nat) :
    ∀ (rs : List RootItem) (vis : List String) (acc : List BOMNode),
      (resolveLoop env md rs vis acc).err = none →
      (resolveLoop env md rs vis acc).msg ≠ "" →
      (resolveLoop env md rs vis acc).trees = [] := by
  intro rs
  induction rs with
  | nil => intro vis acc _ hmsg; exact absurd rfl hmsg
  | cons r rs ih =>
    intro vis acc
    simp only [resolveLoop]
    cases herr : (dfs env md r.partID r.name r.quantity vis).err with
    | some e => dsimp only; intro h; simp at h
    | none =>
      dsimp only
      by_cases habort : (dfs env md r.partID r.name r.quantity vis).msg ≠ "" ∨
          (dfs env md r.partID r.name r.quantity vis).ok = false
      · rw [if_pos habort]; intro _ _; rfl
      · rw [if_neg habort]; exact ih _ _

/-- C3: any abort while resolving a root yields no trees at all (never a
partial forest) together with the single message; an aborting first root
short-circuits all remaining roots, whose outcome does not influence the
result; the cycle guard fires exactly when the current item id is already on
the visiting set, with a message that starts with "circular"; and the
concrete cyclic graph `A → B → A` resolves to an empty tree list whose
message contains "circular". -/
theorem claim_C3_abort_short_circuits :
    (∀ (env : Env) (md : Nat) (roots : List RootItem),
      (ResolveInvoiceBOM env md roots).err = none →
      (ResolveInvoiceBOM env md roots).msg ≠ "" →
      (ResolveInvoiceBOM env md roots).trees = []) ∧
    (∀ (env : Env) (md : Nat) (vis : List String) (acc : List BOMNode)
        (r : RootItem) (rs : List RootItem),
      (dfs env md r.partID r.name r.quantity vis).err = none →
      (dfs env md r.partID r.name r.quantity vis).msg ≠ "" →
      resolveLoop env md (r :: rs) vis acc =
        ⟨[], (dfs env md r.partID r.name r.quantity vis).msg, none⟩) ∧
    (∀ (env : Env) (fuel : Nat) (id dn : String) (q : ℚ) (vis : List String),
      vis.contains id = true →
      dfs env (fuel + 1) id dn q vis =
        ⟨emptyNode, "circular" ++ " parent/child relationship detected at " ++ id,
          false, none, vis⟩) ∧
    ResolveInvoiceBOM envCyc 12 [⟨"A", "", 1⟩] =
      ⟨[], "circular" ++ " parent/child relationship detected at A", none⟩ := by
  refine ⟨?_, ?_, ?_, ?_⟩
  · intro env md roots herr hmsg
    exact resolveLoop_abort_trees env md roots [] [] herr hmsg
  · intro env md vis acc r rs herr hmsg
    simp only [resolveLoop]
    rw [herr]
    dsimp only
    rw [if_pos (Or.inl hmsg)]
  · intro env fuel id dn q vis hc
    simp only [dfs]
    rw [if_pos hc]
    rfl
  · simp [ResolveInvoiceBOM, resolveLoop, dfs, dfsKids, envCyc]

/-- Witness for C3: the concrete cyclic graph aborts with no trees. -/
theorem claim_C3_witness :
    (ResolveInvoiceBOM envCyc 12 [⟨"A", "", 1⟩]).trees = [] :=
  claim_C3_abort_short_circuits.1 envCyc 12 [⟨"A", "", 1⟩]
    (by simp [ResolveInvoiceBOM, resolveLoop, dfs, dfsKids, envCyc])
    (by simp [ResolveInvoiceBOM, resolveLoop, dfs, dfsKids, envCyc])

/-- C10: the cycle-guard visiting set holds exactly the current root-to-node
path: every `dfs` frame returns the visiting set it was given (its own id,
inserted after the guard checks, is removed again on return), the set starts
empty for each invocation, and an item appearing on several sibling branches
(the diamond `R → A → L`, `R → B → L`) or under several roots resolves
successfully with one node — carrying its own effective quantity — per
occurrence. -/
theorem claim_C10_visiting_set_is_path :
    (∀ (env : Env) (fuel : Nat) (id dn : String) (q : ℚ) (vis : List String),
      (dfs env fuel id dn q vis).vis = vis) ∧
    (∀ (env : Env) (md : Nat) (roots : List RootItem),
      ResolveInvoiceBOM env md roots = resolveLoop env md roots [] []) ∧
    ResolveInvoiceBOM envDiamond 12 [⟨"R", "", 1⟩] =
      ⟨[.mk "R" "R" 1 true
          [.mk "A" "A" 2 true [.mk "L" "L" 6 false []],
           .mk "B" "B" 5 true [.mk "L" "L" 15 false []]]], "", none⟩ ∧
    ResolveInvoiceBOM envDiamond 12 [⟨"L", "", 2⟩, ⟨"L", "", 3⟩] =
      ⟨[.mk "L" "L" 2 false [], .mk "L" "L" 3 false []], "", none⟩ := by
  refine ⟨dfs_vis, fun _ _ _ => rfl, ?_, ?_⟩
  · simp [ResolveInvoiceBOM, resolveLoop, dfs, dfsKids, envDiamond]
    norm_num
  · simp [ResolveInvoiceBOM, resolveLoop, dfs, dfsKids, envDiamond]

lemma normList_get? (pe : ℚ) :
    ∀ (cs : List BOMNode) (j : Nat),
      (normList cs pe).get? j = (cs.get? j).map (fun c => norm c pe) := by
  intro cs
  induction cs with
  | nil => intro j; simp [normList]
  | cons c cs ih =>
    intro j
    cases j with
    | zero => simp [normList]
    | succ j => simpa [normList] using ih j

lemma norm_children (n : BOMNode) (pe : ℚ) :
    (norm n pe).children = normList n.children n.quantity := by
  cases n with
  | mk p nm q a cs => rfl

lemma norm_quantity (n : BOMNode) (pe : ℚ) :
    (norm n pe).quantity = if 0 < pe then n.quantity / pe else n.quantity := by
  cases n with
  | mk p nm q a cs => rfl

lemma norm_nodeAt_quantity :
    ∀ (p : List Nat) (n : BOMNode) (pe : ℚ) (par opar c oc : BOMNode) (j : Nat),
      nodeAt n p = some par → nodeAt (norm n pe) p = some opar →
      par.children.get? j = some c → opar.children.get? j = some oc →
      oc.quantity = if 0 < par.quantity then c.quantity / par.quantity else c.quantity := by
  intro p
  induction p with
  | nil =>
    intro n pe par opar c oc j h1 h2 h3 h4
    simp [nodeAt] at h1 h2
    subst h1; subst h2
    rw [norm_children] at h4
    rw [normList_get?, h3] at h4
    simp at h4
    rw [← h4, norm_quantity]
  | cons j' p ih =>
    intro n pe par opar c oc j h1 h2 h3 h4
    simp only [nodeAt] at h1 h2
    cases hc' : n.children.get? j' with
    | none => rw [hc'] at h1; simp at h1
    | some c' =>
      rw [hc'] at h1
      rw [norm_children, normList_get?, hc'] at h2
      simp at h2
      exact ih c' n.quantity par opar c oc j h1 h2 h3 h4

/-- The counterexample input for C4: the assembly root of `bomNeg` has
effective quantity `-2`, which is not strictly positive, so the code leaves
the child quantity `4` unchanged, while the claim's rule (divide whenever the
parent is non-zero) would give `4 / (-2) = -2`. -/
theorem claim_C4_counterexample :
    BuildPerAssemblyBOM bomNeg rootsNeg =
      [.mk "A" "A" (-2) true [.mk "B" "B" 4 false []]] ∧
    (4 : ℚ) ≠ 4 / (-2) := by
  constructor
  · simp [BuildPerAssemblyBOM, perAssyRoot, bomNeg, rootsNeg, normList, norm]
  · norm_num

/-- C4 (amended): `BuildPerAssemblyBOM` keeps every root node's quantity
equal to its raw requested invoice quantity, and sets every descendant
node's quantity to its own effective quantity divided by its immediate
parent's effective quantity whenever that parent effective quantity is
strictly positive; otherwise — zero or negative — the descendant's own
effective quantity is used unchanged (the code tests `parentEffective > 0`,
not just `≠ 0`). -/
theorem claim_C4_per_assembly_normalizer (bom : List BOMNode) (roots : List RootItem) :
    (BuildPerAssemblyBOM bom roots).length = min bom.length roots.length ∧
    ∀ (i : Nat) (b : BOMNode) (r : RootItem) (o : BOMNode),
      bom.get? i = some b → roots.get? i = some r →
      (BuildPerAssemblyBOM bom roots).get? i = some o →
      o.quantity = r.quantity ∧
      ∀ (p : List Nat) (par opar c oc : BOMNode) (j : Nat),
        nodeAt b p = some par → nodeAt o p = some opar →
        par.children.get? j = some c → opar.children.get? j = some oc →
        oc.quantity = if 0 < par.quantity then c.quantity / par.quantity else c.quantity := by
  constructor
  · simp [BuildPerAssemblyBOM]
  · intro i b r o hb hr ho
    have hzip : (bom.zip roots).get? i = some (b, r) :=
      (List.get?_zip_eq_some _ _ _ _).mpr ⟨hb, hr⟩
    cases b with
    | mk bp bnm bq ba bcs =>
      have ho2 : (BuildPerAssemblyBOM bom roots).get? i =
          some (BOMNode.mk bp bnm r.quantity ba (normList bcs bq)) := by
        simp only [BuildPerAssemblyBOM, List.get?_map, hzip, Option.map_some', perAssyRoot]
      have ho' : o = BOMNode.mk bp bnm r.quantity ba (normList bcs bq) :=
        Option.some.inj (ho.symm.trans ho2)
      subst ho'
      refine ⟨rfl, ?_⟩
      intro p par opar c oc j h1 h2 h3 h4
      cases p with
      | nil =>
        simp [nodeAt] at h1 h2
        subst h1; subst h2
        simp only [BOMNode.children] at h3 h4
        rw [normList_get?, h3] at h4
        simp at h4
        rw [← h4, norm_quantity]
        rfl
      | cons j' p' =>
        simp only [nodeAt, BOMNode.children] at h1 h2
        cases hc' : bcs.get? j' with
        | none => rw [hc'] at h1; simp at h1
        | some c' =>
          rw [hc'] at h1
          rw [normList_get?, hc'] at h2
          simp at h2
          exact norm_nodeAt_quantity p' c' bq par opar c oc j h1 h2 h3 h4

/-- Witness for C4: in the per-assembly view of `bomEx`, the leaf under the
first root (effective quantity 6, parent effective quantity 2) displays
`6 / 2 = 3`. -/
theorem claim_C4_witness :
    (BOMNode.mk "L" "Leaf" (3 : ℚ) false []).quantity =
      if 0 < (BOMNode.mk "R1" "R1" (2 : ℚ) true [.mk "L" "Leaf" 6 false []]).quantity then
        (BOMNode.mk "L" "Leaf" (6 : ℚ) false []).quantity /
          (BOMNode.mk "R1" "R1" (2 : ℚ) true [.mk "L" "Leaf" 6 false []]).quantity
      else (BOMNode.mk "L" "Leaf" (6 : ℚ) false []).quantity := by
  refine ((claim_C4_per_assembly_normalizer bomEx rootsEx).2 0
    (.mk "R1" "R1" 2 true [.mk "L" "Leaf" 6 false []]) ⟨"R1", "R1", 2⟩
    (.mk "R1" "R1" 2 true [.mk "L" "Leaf" 3 false []]) rfl rfl ?_).2
    [] _ _ _ _ 0 rfl rfl rfl rfl
  simp [BuildPerAssemblyBOM, perAssyRoot, bomEx, rootsEx, normList, norm]
  norm_num

lemma find?_map_partID (f : LeafTotal → LeafTotal)
    (hf : ∀ lt, (f lt).partID = lt.partID) (x : String) :
    ∀ acc : List LeafTotal,
      (acc.map f).find? (fun lt => lt.partID == x) =
        (acc.find? (fun lt => lt.partID == x)).map f := by
  intro acc
  induction acc with
  | nil => rfl
  | cons lt acc ih =>
    by_cases h : lt.partID = x
    · simp [List.find?_cons, hf, h]
    · simp [List.find?_cons, hf, h, ih]

lemma find?_partID_eq {acc : List LeafTotal} {x : String} {lt : LeafTotal}
    (h : acc.find? (fun lt => lt.partID == x) = some lt) : lt.partID = x := by
  have := List.find?_some h
  simpa using this

lemma keyQty_cons (lt : LeafTotal) (acc : List LeafTotal) (x : String) :
    keyQty (lt :: acc) x = if lt.partID = x then some lt.quantity else keyQty acc x := by
  by_cases h : lt.partID = x <;> simp [keyQty, List.find?_cons, h]

lemma keyName_cons (lt : LeafTotal) (acc : List LeafTotal) (x : String) :
    keyName (lt :: acc) x = if lt.partID = x then some lt.name else keyName acc x := by
  by_cases h : lt.partID = x <;> simp [keyName, List.find?_cons, h]

lemma keyQty_update (pid x : String) (q : ℚ) :
    ∀ acc : List LeafTotal,
      keyQty (acc.map fun lt =>
        if lt.partID == pid then ⟨lt.partID, lt.name, lt.quantity + q⟩ else lt) x =
      if x = pid then (keyQty acc pid).map (fun v => v + q) else keyQty acc x := by
  intro acc
  induction acc with
  | nil => by_cases hx : x = pid <;> simp [keyQty, hx]
  | cons lt acc ih =>
    simp only [List.map_cons, keyQty_cons]
    by_cases hup : lt.partID = pid
    · by_cases hlt : lt.partID = x
      · have hx : x = pid := by rw [← hlt, hup]
        subst hx
        simp [hup, hlt]
      · have hx : ¬x = pid := fun h => hlt (by rw [h, hup])
        have hpx : ¬pid = x := fun h => hx h.symm
        simp only [hup, hlt, hx, hpx, if_true, if_false]
        simp [hup, hlt, hx, hpx]
        simpa [hx] using ih
    · by_cases hlt : lt.partID = x
      · have hx : ¬x = pid := fun h => hup (by rw [hlt, h])
        simp [hup, hlt, hx]
      · simp [hup, hlt]
        simpa using ih

lemma keyQty_append_new (pid nm x : String) (q : ℚ) :
    ∀ acc : List LeafTotal, acc.find? (fun lt => lt.partID == pid) = none →
      keyQty (acc ++ [⟨pid, nm, q⟩]) x =
        if x = pid then some q else keyQty acc x := by
  intro acc
  induction acc with
  | nil =>
    intro _
    rw [List.nil_append, keyQty_cons]
    by_cases hx : x = pid
    · simp [hx]
    · have : ¬pid = x := fun h => hx h.symm
      simp [keyQty, this, hx]
  | cons lt acc ih =>
    intro hnone
    rw [List.find?_cons] at hnone
    by_cases hup : lt.partID = pid
    · simp [hup] at hnone
    · have hb : (lt.partID == pid) = false := by simpa using hup
      rw [hb] at hnone
      simp only [Bool.false_eq_true, if_false] at hnone
      rw [List.cons_append, keyQty_cons, keyQty_cons]
      by_cases hlt : lt.partID = x
      · have hx : ¬x = pid := fun h => hup (by rw [hlt, h])
        rw [if_pos hlt, if_pos hlt, if_neg hx]
      · rw [if_neg hlt, if_neg hlt, ih hnone]

lemma find?_of_any {acc : List LeafTotal} {pid : String}
    (hany : acc.any (fun lt => lt.partID == pid) = true) :
    ∃ lt0, acc.find? (fun lt => lt.partID == pid) = some lt0 := by
  cases h0 : acc.find? (fun lt => lt.partID == pid) with
  | none =>
    exfalso
    rcases List.any_eq_true.mp hany with ⟨a, hmem, hp⟩
    exact absurd hp (by simpa using List.find?_eq_none.mp h0 a hmem)
  | some lt0 => exact ⟨lt0, rfl⟩

lemma keyQty_aggInsert (acc : List LeafTotal) (pid nm : String) (q : ℚ) (x : String) :
    keyQty (aggInsert acc pid nm q) x =
      if x = pid then
        match keyQty acc pid with
        | some v => some (v + q)
        | none => some q
      else keyQty acc x := by
  by_cases hany : acc.any (fun lt => lt.partID == pid) = true
  · rcases find?_of_any hany with ⟨lt0, h0⟩
    simp only [aggInsert, hany, if_true]
    rw [keyQty_update]
    by_cases hx : x = pid
    · subst hx
      simp [keyQty, h0]
    · simp [hx]
  · have hnone : acc.find? (fun lt => lt.partID == pid) = none := by
      rw [List.find?_eq_none]
      intro a hmem hp
      exact hany (List.any_eq_true.mpr ⟨a, hmem, hp⟩)
    simp only [aggInsert, hany, if_false, Bool.false_eq_true]
    rw [keyQty_append_new pid nm x q acc hnone]
    by_cases hx : x = pid
    · subst hx
      simp [keyQty, hnone]
    · simp [hx]

lemma keyName_update (pid x : String) (q : ℚ) :
    ∀ acc : List LeafTotal,
      keyName (acc.map fun lt =>
        if lt.partID == pid then ⟨lt.partID, lt.name, lt.quantity + q⟩ else lt) x =
      keyName acc x := by
  intro acc
  induction acc with
  | nil => rfl
  | cons lt acc ih =>
    simp only [List.map_cons, keyName_cons]
    by_cases hup : lt.partID = pid
    · by_cases hlt : lt.partID = x
      · have hpx : pid = x := hup.symm.trans hlt
        simp [hup, hlt, hpx]
      · have hpx : ¬pid = x := fun h => hlt (hup.trans h)
        simp [hup, hlt, hpx]
        simpa using ih
    · by_cases hlt : lt.partID = x
      · have hxp : ¬x = pid := fun h => hup (hlt.trans h)
        simp [hup, hlt, hxp]
      · simp [hup, hlt]
        simpa using ih

lemma keyName_append_new (pid nm x : String) (q : ℚ) :
    ∀ acc : List LeafTotal, acc.find? (fun lt => lt.partID == pid) = none →
      keyName (acc ++ [⟨pid, nm, q⟩]) x =
        if x = pid then some nm else keyName acc x := by
  intro acc
  induction acc with
  | nil =>
    intro _
    rw [List.nil_append, keyName_cons]
    by_cases hx : x = pid
    · simp [hx]
    · have : ¬pid = x := fun h => hx h.symm
      simp [keyName, this, hx]
  | cons lt acc ih =>
    intro hnone
    rw [List.find?_cons] at hnone
    by_cases hup : lt.partID = pid
    · simp [hup] at hnone
    · have hb : (lt.partID == pid) = false := by simpa using hup
      rw [hb] at hnone
      simp only [Bool.false_eq_true, if_false] at hnone
      rw [List.cons_append, keyName_cons, keyName_cons]
      by_cases hlt : lt.partID = x
      · have hx : ¬x = pid := fun h => hup (by rw [hlt, h])
        rw [if_pos hlt, if_pos hlt, if_neg hx]
      · rw [if_neg hlt, if_neg hlt, ih hnone]

lemma keyName_aggInsert (acc : List LeafTotal) (pid nm : String) (q : ℚ) (x : String) :
    keyName (aggInsert acc pid nm q) x =
      if x = pid then
        match keyName acc pid with
        | some nm0 => some nm0
        | none => some nm
      else keyName acc x := by
  by_cases hany : acc.any (fun lt => lt.partID == pid) = true
  · rcases find?_of_any hany with ⟨lt0, h0⟩
    simp only [aggInsert, hany, if_true]
    rw [keyName_update]
    by_cases hx : x = pid
    · subst hx
      simp [keyName, h0]
    · simp [hx]
  · have hnone : acc.find? (fun lt => lt.partID == pid) = none := by
      rw [List.find?_eq_none]
      intro a hmem hp
      exact hany (List.any_eq_true.mpr ⟨a, hmem, hp⟩)
    simp only [aggInsert, hany, if_false, Bool.false_eq_true]
    rw [keyName_append_new pid nm x q acc hnone]
    by_cases hx : x = pid
    · subst hx
      simp [keyName, hnone]
    · simp [hx]

lemma sumFor_cons (lt : LeafTotal) (occs : List LeafTotal) (x : String) :
    sumFor (lt :: occs) x = (if lt.partID = x then lt.quantity else 0) + sumFor occs x := by
  by_cases h : lt.partID = x <;> simp [sumFor, List.filter_cons, h]

lemma keyQty_collapse :
    ∀ (occs : List LeafTotal) (acc : List LeafTotal) (x : String),
      keyQty (collapse occs acc) x =
        match keyQty acc x with
        | some v => some (v + sumFor occs x)
        | none =>
          if occs.any (fun lt => lt.partID == x) then some (sumFor occs x) else none := by
  intro occs
  induction occs with
  | nil =>
    intro acc x
    cases h : keyQty acc x <;> simp [collapse, sumFor, h]
  | cons lt occs ih =>
    intro acc x
    have hstep : collapse (lt :: occs) acc =
        collapse occs (aggInsert acc lt.partID lt.name lt.quantity) := rfl
    rw [hstep, ih, keyQty_aggInsert]
    by_cases hx : x = lt.partID
    · subst hx
      rw [if_pos rfl]
      cases hacc : keyQty acc lt.partID <;>
        simp [hacc, sumFor_cons, List.any_cons, add_assoc]
    · have hlx : ¬lt.partID = x := fun h => hx h.symm
      rw [if_neg hx]
      cases hacc : keyQty acc x <;> simp [hacc, sumFor_cons, List.any_cons, hlx]

lemma keyName_collapse :
    ∀ (occs : List LeafTotal) (acc : List LeafTotal) (x : String),
      keyName (collapse occs acc) x =
        match keyName acc x with
        | some nm => some nm
        | none => (occs.find? (fun lt => lt.partID == x)).map (fun lt => lt.name) := by
  intro occs
  induction occs with
  | nil =>
    intro acc x
    cases h : keyName acc x <;> simp [collapse, h]
  | cons lt occs ih =>
    intro acc x
    have hstep : collapse (lt :: occs) acc =
        collapse occs (aggInsert acc lt.partID lt.name lt.quantity) := rfl
    rw [hstep, ih, keyName_aggInsert]
    by_cases hx : x = lt.partID
    · subst hx
      rw [if_pos rfl]
      cases hacc : keyName acc lt.partID <;> simp [hacc, List.find?_cons]
    · have hlx : ¬lt.partID = x := fun h => hx h.symm
      rw [if_neg hx]
      cases hacc : keyName acc x <;> simp [hacc, List.find?_cons, hlx]

lemma nodup_aggInsert (acc : List LeafTotal) (pid nm : String) (q : ℚ)
    (h : (acc.map fun lt => lt.partID).Nodup) :
    ((aggInsert acc pid nm q).map fun lt => lt.partID).Nodup := by
  by_cases hany : acc.any (fun lt => lt.partID == pid) = true
  · simp only [aggInsert, hany, if_true]
    have : ((acc.map fun lt =>
        if lt.partID == pid then (⟨lt.partID, lt.name, lt.quantity + q⟩ : LeafTotal) else lt).map
          fun lt => lt.partID) = acc.map fun lt => lt.partID := by
      rw [List.map_map]
      apply List.map_congr_left
      intro lt _
      by_cases hup : lt.partID = pid <;> simp [hup]
    rw [this]
    exact h
  · simp only [aggInsert, hany, if_false, Bool.false_eq_true]
    rw [List.map_append]
    refine List.Nodup.append h (by simp) ?_
    intro a ha hb
    simp at hb
    subst hb
    rcases List.mem_map.mp ha with ⟨lt, hmem, hpid⟩
    exact hany (List.any_eq_true.mpr ⟨lt, hmem, by simpa using hpid⟩)

lemma nodup_collapse :
    ∀ (occs : List LeafTotal) (acc : List LeafTotal),
      (acc.map fun lt => lt.partID).Nodup →
      ((collapse occs acc).map fun lt => lt.partID).Nodup := by
  intro occs
  induction occs with
  | nil => intro acc h; exact h
  | cons lt occs ih =>
    intro acc h
    exact ih _ (nodup_aggInsert acc lt.partID lt.name lt.quantity h)

lemma collapse_append (l1 l2 : List LeafTotal) (acc : List LeafTotal) :
    collapse (l1 ++ l2) acc = collapse l2 (collapse l1 acc) := by
  simp [collapse, List.foldl_append]

lemma dwalk_collapse :
    ∀ n : BOMNode, ∀ acc, dwalk n acc = collapse (leafOcc n) acc := by
  refine BOMNode.strongInd (fun n => ∀ acc, dwalk n acc = collapse (leafOcc n) acc) ?_
  intro p nm q a cs hIH
  have hlist : ∀ cs' : List BOMNode,
      (∀ c ∈ cs', ∀ acc, dwalk c acc = collapse (leafOcc c) acc) →
      ∀ acc, dwalkList cs' acc = collapse (leafOccList cs') acc := by
    intro cs'
    induction cs' with
    | nil => intro _ acc; rfl
    | cons c cs' ihl =>
      intro hmem acc
      rw [dwalkList, leafOccList, collapse_append]
      rw [hmem c (List.mem_cons_self c cs') acc]
      exact ihl (fun c h => hmem c (List.mem_cons_of_mem _ h)) _
  intro acc
  by_cases ha : a = false
  · subst ha
    simp [dwalk, leafOcc, collapse]
  · have ha' : a = true := by simpa using ha
    subst ha'
    simp only [dwalk, leafOcc, if_true, if_false]
    exact hlist cs hIH acc

lemma multWalk_collapse :
    ∀ n : BOMNode, ∀ mul acc, multWalk n mul acc = collapse (mulOcc n mul) acc := by
  refine BOMNode.strongInd (fun n => ∀ mul acc, multWalk n mul acc = collapse (mulOcc n mul) acc) ?_
  intro p nm q a cs hIH
  have hlist : ∀ cs' : List BOMNode,
      (∀ c ∈ cs', ∀ mul acc, multWalk c mul acc = collapse (mulOcc c mul) acc) →
      ∀ mul acc, multWalkList cs' mul acc = collapse (mulOccList cs' mul) acc := by
    intro cs'
    induction cs' with
    | nil => intro _ mul acc; rfl
    | cons c cs' ihl =>
      intro hmem mul acc
      rw [multWalkList, mulOccList, collapse_append]
      rw [hmem c (List.mem_cons_self c cs') mul acc]
      exact ihl (fun c h => hmem c (List.mem_cons_of_mem _ h)) _ _
  intro mul acc
  by_cases ha : a = true
  · subst ha
    simp only [multWalk, mulOcc, if_true]
    exact hlist cs hIH _ acc
  · have ha' : a = false := by simpa using ha
    subst ha'
    simp [multWalk, mulOcc, collapse]

lemma foldl_dwalk_collapse :
    ∀ (bom : List BOMNode) (acc : List LeafTotal),
      bom.foldl (fun a r => dwalk r a) acc = collapse (leafOccList bom) acc := by
  intro bom
  induction bom with
  | nil => intro acc; rfl
  | cons t bom ih =>
    intro acc
    rw [List.foldl_cons, leafOccList, collapse_append, dwalk_collapse, ih]

lemma foldl_multWalk_collapse :
    ∀ (perAssy : List BOMNode) (acc : List LeafTotal),
      perAssy.foldl (fun a r => multWalk r 1 a) acc = collapse (mulOccList perAssy 1) acc := by
  intro perAssy
  induction perAssy with
  | nil => intro acc; rfl
  | cons t l ih =>
    intro acc
    rw [List.foldl_cons, mulOccList, collapse_append, multWalk_collapse, ih]

lemma keyQty_map_round (acc : List LeafTotal) (x : String) :
    keyQty (acc.map fun lt => (⟨lt.partID, lt.name, goRound lt.quantity⟩ : LeafTotal)) x =
      (keyQty acc x).map goRound := by
  induction acc with
  | nil => rfl
  | cons lt acc ih =>
    simp only [List.map_cons, keyQty_cons]
    by_cases h : lt.partID = x <;> simp [h, ih]

lemma keyName_map_round (acc : List LeafTotal) (x : String) :
    keyName (acc.map fun lt => (⟨lt.partID, lt.name, goRound lt.quantity⟩ : LeafTotal)) x =
      keyName acc x := by
  induction acc with
  | nil => rfl
  | cons lt acc ih =>
    simp only [List.map_cons, keyName_cons]
    by_cases h : lt.partID = x <;> simp [h, ih]

lemma keys_map_round (acc : List LeafTotal) :
    ((acc.map fun lt => (⟨lt.partID, lt.name, goRound lt.quantity⟩ : LeafTotal)).map
      fun lt => lt.partID) = acc.map fun lt => lt.partID := by
  rw [List.map_map]
  rfl

/-- C5: the direct leaf aggregation produces exactly one total per distinct
leaf part id (no duplicate keys), present precisely when the leaf occurs in
some input tree; the total is the sum of that leaf's effective quantities
over every occurrence in every input tree — assembly nodes contribute
nothing of their own — rounded half away from zero only after all summation;
the display name comes from the first occurrence; and the spec's example
(roots with quantities 2 and 3 sharing a leaf with multiplier 3) yields the
single total 15 under both aggregation implementations. -/
theorem claim_C5_leaf_totals :
    (∀ (bom : List BOMNode) (x : String),
      keyQty (directLeafTotals bom) x =
        (if (leafOccList bom).any (fun lt => lt.partID == x) then
          some (goRound (sumFor (leafOccList bom) x)) else none) ∧
      keyName (directLeafTotals bom) x =
        ((leafOccList bom).find? (fun lt => lt.partID == x)).map (fun lt => lt.name) ∧
      ((directLeafTotals bom).map fun lt => lt.partID).Nodup) ∧
    directLeafTotals bomEx = [⟨"L", "Leaf", 15⟩] ∧
    AggregateLeafTotals (BuildPerAssemblyBOM bomEx rootsEx) = [⟨"L", "Leaf", 15⟩] := by
  refine ⟨?_, ?_, ?_⟩
  · intro bom x
    refine ⟨?_, ?_, ?_⟩
    · rw [directLeafTotals, keyQty_map_round, foldl_dwalk_collapse, keyQty_collapse]
      have h0 : keyQty [] x = none := rfl
      rw [h0]
      by_cases h : (leafOccList bom).any (fun lt => lt.partID == x) = true <;> simp [h]
    · rw [directLeafTotals, keyName_map_round, foldl_dwalk_collapse, keyName_collapse]
      rfl
    · rw [directLeafTotals, keys_map_round, foldl_dwalk_collapse]
      exact nodup_collapse _ [] (by simp)
  · simp [directLeafTotals, bomEx, dwalk, dwalkList, aggInsert, goRound]
    norm_num
  · simp [AggregateLeafTotals, BuildPerAssemblyBOM, perAssyRoot, bomEx, rootsEx, multWalk,
      multWalkList, norm, normList, aggInsert, goRound]
    norm_num

lemma mulOccList_eq_flatMap (mul : ℚ) :
    ∀ cs : List BOMNode, mulOccList cs mul = cs.flatMap (fun c => mulOcc c mul) := by
  intro cs
  induction cs with
  | nil => rfl
  | cons c cs ih => simp [mulOccList, ih]

lemma sumFor_perm {l1 l2 : List LeafTotal} (h : l1.Perm l2) (x : String) :
    sumFor l1 x = sumFor l2 x :=
  List.Perm.sum_eq ((h.filter _).map _)

lemma any_perm {l1 l2 : List LeafTotal} (h : l1.Perm l2) (x : String) :
    l1.any (fun lt => lt.partID == x) = l2.any (fun lt => lt.partID == x) := by
  cases h2 : l2.any (fun lt => lt.partID == x) with
  | true =>
    rcases List.any_eq_true.mp h2 with ⟨a, hmem, hp⟩
    exact List.any_eq_true.mpr ⟨a, h.mem_iff.mpr hmem, hp⟩
  | false =>
    cases h1 : l1.any (fun lt => lt.partID == x) with
    | false => rfl
    | true =>
      rcases List.any_eq_true.mp h1 with ⟨a, hmem, hp⟩
      rw [← h2]
      exact (List.any_eq_true.mpr ⟨a, h.mem_iff.mp hmem, hp⟩).symm

lemma keyQty_aggregate (perAssy : List BOMNode) (x : String) :
    keyQty (AggregateLeafTotals perAssy) x =
      if (mulOccList perAssy 1).any (fun lt => lt.partID == x) then
        some (goRound (sumFor (mulOccList perAssy 1) x))
      else none := by
  rw [AggregateLeafTotals, keyQty_map_round, foldl_multWalk_collapse, keyQty_collapse]
  have h0 : keyQty [] x = none := rfl
  rw [h0]
  by_cases h : (mulOccList perAssy 1).any (fun lt => lt.partID == x) = true <;> simp [h]

/-- C9: `AggregateLeafTotals` is order-independent — lists of per-assembly
trees that are permutations of each other yield the same per-item totals —
and it is a pure function, so aggregating the same list of trees twice yields
identical totals. -/
theorem claim_C9_order_independence :
    (∀ (ts us : List BOMNode), ts.Perm us →
      ∀ x : String, keyQty (AggregateLeafTotals ts) x = keyQty (AggregateLeafTotals us) x) ∧
    (∀ ts : List BOMNode, AggregateLeafTotals ts = AggregateLeafTotals ts) := by
  constructor
  · intro ts us hperm x
    have hocc : (mulOccList ts 1).Perm (mulOccList us 1) := by
      rw [mulOccList_eq_flatMap, mulOccList_eq_flatMap]
      exact hperm.flatMap_right _
    rw [keyQty_aggregate, keyQty_aggregate, any_perm hocc, sumFor_perm hocc]
  · intro ts
    rfl

/-- Witness for C9: swapping the two trees of `bomEx` leaves the total of
leaf `L` unchanged. -/
theorem claim_C9_witness :
    keyQty (AggregateLeafTotals
      [.mk "R1" "R1" 2 true [.mk "L" "Leaf" 6 false []],
       .mk "R2" "R2" 3 true [.mk "L" "Leaf" 9 false []]]) "L" =
    keyQty (AggregateLeafTotals
      [.mk "R2" "R2" 3 true [.mk "L" "Leaf" 9 false []],
       .mk "R1" "R1" 2 true [.mk "L" "Leaf" 6 false []]]) "L" :=
  claim_C9_order_independence.1 _ _ (List.Perm.swap _ _ _) "L"

lemma assyPos_mk (p nm : String) (q : ℚ) (a : Bool) (cs : List BOMNode)
    (h : assyPos (.mk p nm q a cs) = true) :
    (a = true → 0 < q) ∧ assyPosList cs = true := by
  simp only [assyPos, Bool.and_eq_true, Bool.or_eq_true, Bool.not_eq_true',
    decide_eq_true_eq] at h
  exact ⟨fun ha => h.1.resolve_left (by simp [ha]), h.2⟩

lemma properList_mem {cs : List BOMNode} (h : properList cs = true) :
    ∀ c ∈ cs, proper c = true := by
  induction cs with
  | nil => intro c hc; simp at hc
  | cons c0 cs ih =>
    simp only [properList, Bool.and_eq_true] at h
    intro c hc
    rcases List.mem_cons.mp hc with h0 | h0
    · subst h0; exact h.1
    · exact ih h.2 c h0

lemma assyPosList_mem {cs : List BOMNode} (h : assyPosList cs = true) :
    ∀ c ∈ cs, assyPos c = true := by
  induction cs with
  | nil => intro c hc; simp at hc
  | cons c0 cs ih =>
    simp only [assyPosList, Bool.and_eq_true] at h
    intro c hc
    rcases List.mem_cons.mp hc with h0 | h0
    · subst h0; exact h.1
    · exact ih h.2 c h0

lemma pe_mul_div (pe q : ℚ) (hpe : 0 < pe) : pe * (q / pe) = q := by
  field_simp

lemma multWalk_norm_dwalk :
    ∀ n : BOMNode, ∀ (pe : ℚ) (acc : List LeafTotal), 0 < pe → assyPos n = true →
      multWalk (norm n pe) pe acc = dwalk n acc := by
  refine BOMNode.strongInd (fun n => ∀ (pe : ℚ) (acc : List LeafTotal), 0 < pe →
    assyPos n = true → multWalk (norm n pe) pe acc = dwalk n acc) ?_
  intro p nm q a cs hIH
  have hlist : ∀ cs' : List BOMNode,
      (∀ c ∈ cs', ∀ pe acc, 0 < pe → assyPos c = true →
        multWalk (norm c pe) pe acc = dwalk c acc) →
      ∀ pe acc, 0 < pe → assyPosList cs' = true →
        multWalkList (normList cs' pe) pe acc = dwalkList cs' acc := by
    intro cs'
    induction cs' with
    | nil => intro _ pe acc _ _; rfl
    | cons c cs' ihl =>
      intro hmem pe acc hpe hap
      simp only [assyPosList, Bool.and_eq_true] at hap
      rw [normList, multWalkList, dwalkList]
      rw [hmem c (List.mem_cons_self c cs') pe acc hpe hap.1]
      exact ihl (fun c h => hmem c (List.mem_cons_of_mem _ h)) pe _ hpe hap.2
  intro pe acc hpe hap
  obtain ⟨hq, hapl⟩ := assyPos_mk _ _ _ _ _ hap
  by_cases ha : a = true
  · subst ha
    have hq' : 0 < q := hq rfl
    rw [norm]
    simp only [multWalk, dwalk, if_pos hpe, if_true]
    have hdivpos : 0 < q / pe := div_pos hq' hpe
    rw [if_pos hdivpos, pe_mul_div pe q hpe]
    exact hlist cs hIH q acc hq' hapl
  · have ha' : a = false := by simpa using ha
    subst ha'
    rw [norm]
    simp only [multWalk, dwalk, if_pos hpe]
    simp only [Bool.false_eq_true, if_false, if_true]
    rw [pe_mul_div pe q hpe]

lemma multWalkList_norm_dwalkList :
    ∀ (cs : List BOMNode) (pe : ℚ) (acc : List LeafTotal), 0 < pe → assyPosList cs = true →
      multWalkList (normList cs pe) pe acc = dwalkList cs acc := by
  intro cs
  induction cs with
  | nil => intro pe acc _ _; rfl
  | cons c cs ih =>
    intro pe acc hpe hap
    simp only [assyPosList, Bool.and_eq_true] at hap
    rw [normList, multWalkList, dwalkList, multWalk_norm_dwalk c pe acc hpe hap.1]
    exact ih pe _ hpe hap.2

lemma multWalk_perAssyRoot (b : BOMNode) (r : RootItem) (acc : List LeafTotal)
    (hq : b.quantity = r.quantity) (ha : assyPos b = true) :
    multWalk (perAssyRoot b r) 1 acc = dwalk b acc := by
  cases b with
  | mk p nm q a cs =>
    obtain ⟨hqpos, hapl⟩ := assyPos_mk _ _ _ _ _ ha
    have hq' : q = r.quantity := hq
    by_cases hab : a = true
    · subst hab
      have h0 : 0 < q := hqpos rfl
      have h0r : 0 < r.quantity := hq' ▸ h0
      simp only [perAssyRoot, multWalk, dwalk, if_true]
      rw [if_pos h0r, one_mul, ← hq']
      exact multWalkList_norm_dwalkList cs q acc h0 hapl
    · have ha' : a = false := by simpa using hab
      subst ha'
      simp [perAssyRoot, multWalk, dwalk, hq']

lemma perAssembly_core_eq :
    ∀ (bom : List BOMNode) (roots : List RootItem) (acc : List LeafTotal),
      bom.length = roots.length →
      (∀ (i : Nat) (b : BOMNode) (r : RootItem),
        bom.get? i = some b → roots.get? i = some r → b.quantity = r.quantity) →
      (∀ b ∈ bom, assyPos b = true) →
      (BuildPerAssemblyBOM bom roots).foldl (fun a r => multWalk r 1 a) acc =
        bom.foldl (fun a r => dwalk r a) acc := by
  intro bom
  induction bom with
  | nil => intro roots acc _ _ _; simp [BuildPerAssemblyBOM]
  | cons b bom ih =>
    intro roots acc hlen hq ha
    cases roots with
    | nil => simp at hlen
    | cons r roots =>
      have hstep : BuildPerAssemblyBOM (b :: bom) (r :: roots) =
          perAssyRoot b r :: BuildPerAssemblyBOM bom roots := rfl
      rw [hstep, List.foldl_cons, List.foldl_cons]
      rw [multWalk_perAssyRoot b r acc (hq 0 b r rfl rfl) (ha b (List.mem_cons_self b bom))]
      exact ih roots _ (by simpa using hlen)
        (fun i b' r' h1 h2 => hq (i + 1) b' r' (by simpa using h1) (by simpa using h2))
        (fun b' hb => ha b' (List.mem_cons_of_mem _ hb))

lemma mbd_norm :
    ∀ n : BOMNode, ∀ pe : ℚ, 0 < pe → proper n = true → assyPos n = true →
      multiplyBackDown (norm n pe) pe = n := by
  refine BOMNode.strongInd (fun n => ∀ pe : ℚ, 0 < pe → proper n = true →
    assyPos n = true → multiplyBackDown (norm n pe) pe = n) ?_
  intro p nm q a cs hIH
  have hlist : ∀ cs' : List BOMNode,
      (∀ c ∈ cs', ∀ pe, 0 < pe → proper c = true → assyPos c = true →
        multiplyBackDown (norm c pe) pe = c) →
      ∀ pe, 0 < pe → properList cs' = true → assyPosList cs' = true →
        multiplyBackDownList (normList cs' pe) pe = cs' := by
    intro cs'
    induction cs' with
    | nil => intro _ pe _ _ _; rfl
    | cons c cs' ihl =>
      intro hmem pe hpe hp hap
      simp only [properList, Bool.and_eq_true] at hp
      simp only [assyPosList, Bool.and_eq_true] at hap
      rw [normList, multiplyBackDownList]
      rw [hmem c (List.mem_cons_self c cs') pe hpe hp.1 hap.1]
      rw [ihl (fun c h => hmem c (List.mem_cons_of_mem _ h)) pe hpe hp.2 hap.2]
  intro pe hpe hp hap
  obtain ⟨hqpos, hapl⟩ := assyPos_mk _ _ _ _ _ hap
  have hpl : properList cs = true ∧ (cs.isEmpty = true ∨ a = true) := by
    simp only [proper, Bool.and_eq_true, Bool.or_eq_true] at hp
    exact ⟨hp.2, hp.1⟩
  rw [norm, if_pos hpe, multiplyBackDown]
  have heff : q / pe * pe = q := div_mul_cancel₀ q (ne_of_gt hpe)
  rw [heff]
  rcases hpl.2 with hemp | hass
  · have : cs = [] := by simpa using hemp
    subst this
    rfl
  · have h0 : 0 < q := hqpos hass
    rw [hlist cs hIH q h0 hpl.1 hapl]

lemma mbd_perAssyRoot (b : BOMNode) (r : RootItem)
    (hq : b.quantity = r.quantity) (hp : proper b = true) (ha : assyPos b = true) :
    multiplyBackDown (perAssyRoot b r) 1 = b := by
  cases b with
  | mk p nm q a cs =>
    obtain ⟨hqpos, hapl⟩ := assyPos_mk _ _ _ _ _ ha
    have hpl : properList cs = true ∧ (cs.isEmpty = true ∨ a = true) := by
      simp only [proper, Bool.and_eq_true, Bool.or_eq_true] at hp
      exact ⟨hp.2, hp.1⟩
    have hq' : q = r.quantity := hq
    rw [perAssyRoot, multiplyBackDown, mul_one, ← hq']
    rcases hpl.2 with hemp | hass
    · have : cs = [] := by simpa using hemp
      subst this
      rfl
    · have h0 : 0 < q := hqpos hass
      have hlist : ∀ cs' : List BOMNode, ∀ pe, 0 < pe → properList cs' = true →
          assyPosList cs' = true → multiplyBackDownList (normList cs' pe) pe = cs' := by
        intro cs'
        induction cs' with
        | nil => intro pe _ _ _; rfl
        | cons c cs' ihl =>
          intro pe hpe hpc hac
          simp only [properList, Bool.and_eq_true] at hpc
          simp only [assyPosList, Bool.and_eq_true] at hac
          rw [normList, multiplyBackDownList, mbd_norm c pe hpe hpc.1 hac.1,
            ihl pe hpe hpc.2 hac.2]
      rw [hlist cs q h0 hpl.1 hapl]

/-- C2: for resolved effective-quantity trees paired 1:1 with their root
demand lines (so each root's effective quantity equals its line quantity),
when every assembly node's effective quantity is strictly positive — the
zero-parent fallback never triggers — multiplying the per-assembly quantities
back down reconstructs every node's original effective quantity, and
`AggregateLeafTotals` applied to `BuildPerAssemblyBOM`'s output equals the
handler's direct aggregation of the raw effective-quantity trees. -/
theorem claim_C2_roundtrip_and_agg_equivalence (bom : List BOMNode) (roots : List RootItem)
    (hlen : bom.length = roots.length)
    (hq : ∀ (i : Nat) (b : BOMNode) (r : RootItem),
      bom.get? i = some b → roots.get? i = some r → b.quantity = r.quantity)
    (hp : ∀ b ∈ bom, proper b = true)
    (ha : ∀ b ∈ bom, assyPos b = true) :
    (BuildPerAssemblyBOM bom roots).map (fun t => multiplyBackDown t 1) = bom ∧
    AggregateLeafTotals (BuildPerAssemblyBOM bom roots) = directLeafTotals bom := by
  constructor
  · induction bom generalizing roots with
    | nil => simp [BuildPerAssemblyBOM]
    | cons b bom ih =>
      cases roots with
      | nil => simp at hlen
      | cons r roots =>
        have hstep : BuildPerAssemblyBOM (b :: bom) (r :: roots) =
            perAssyRoot b r :: BuildPerAssemblyBOM bom roots := rfl
        rw [hstep, List.map_cons]
        rw [mbd_perAssyRoot b r (hq 0 b r rfl rfl) (hp b (List.mem_cons_self b bom))
          (ha b (List.mem_cons_self b bom))]
        rw [ih roots (by simpa using hlen)
          (fun i b' r' h1 h2 => hq (i + 1) b' r' (by simpa using h1) (by simpa using h2))
          (fun b' hb => hp b' (List.mem_cons_of_mem _ hb))
          (fun b' hb => ha b' (List.mem_cons_of_mem _ hb))]
  · rw [AggregateLeafTotals, directLeafTotals,
      perAssembly_core_eq bom roots [] hlen hq ha]

/-- Witness for C2: on the spec's two-root example, the per-assembly
pipeline and the direct aggregation produce the same totals. -/
theorem claim_C2_witness :
    AggregateLeafTotals (BuildPerAssemblyBOM bomEx rootsEx) = directLeafTotals bomEx :=
  (claim_C2_roundtrip_and_agg_equivalence bomEx rootsEx rfl
    (by
      intro i b r h1 h2
      match i with
      | 0 => cases h1; cases h2; rfl
      | 1 => cases h1; cases h2; rfl
      | n + 2 => simp [bomEx] at h1)
    (by intro b hb; fin_cases hb <;> rfl)
    (by intro b hb; fin_cases hb <;> norm_num [assyPos, assyPosList])).2

lemma find?_map_keyed {α : Type} (key : α → String) (f : α → α)
    (hf : ∀ a, key (f a) = key a) (x : String) :
    ∀ l : List α, (l.map f).find? (fun a => key a == x) = (l.find? (fun a => key a == x)).map f := by
  intro l
  induction l with
  | nil => rfl
  | cons a l ih =>
    by_cases h : key a = x
    · simp [List.find?_cons, hf, h]
    · simp [List.find?_cons, hf, h, ih]

lemma find?_of_any_keyed {α : Type} (key : α → String) (x : String) {l : List α}
    (h : l.any (fun a => key a == x) = true) :
    ∃ a0, l.find? (fun a => key a == x) = some a0 ∧ key a0 = x := by
  cases h0 : l.find? (fun a => key a == x) with
  | none =>
    exfalso
    rcases List.any_eq_true.mp h with ⟨a, hmem, hp⟩
    exact absurd hp (by simpa using List.find?_eq_none.mp h0 a hmem)
  | some a0 =>
    refine ⟨a0, rfl, ?_⟩
    have := List.find?_some h0
    simpa using this

lemma find?_none_keyed {α : Type} (key : α → String) (x : String) {l : List α}
    (h : ¬l.any (fun a => key a == x) = true) :
    l.find? (fun a => key a == x) = none := by
  rw [List.find?_eq_none]
  intro a hmem hp
  exact h (List.any_eq_true.mpr ⟨a, hmem, hp⟩)

lemma itemsFor_addRow (g : List (String × List ContactItem)) (cid0 : String)
    (r : ShoppingRow) (cid : String) :
    itemsFor (addRow g cid0 r) cid =
      if cid = cid0 then
        match itemsFor g cid0 with
        | some items => some (insertItem items r)
        | none => some [⟨r.itemID, r.quantity, [r.listID]⟩]
      else itemsFor g cid := by
  by_cases hany : g.any (fun p => p.1 == cid0) = true
  · rcases find?_of_any_keyed (fun p : String × List ContactItem => p.1) cid0 hany with ⟨p0, h0, hk0⟩
    simp only [addRow, hany, if_true]
    have hf : ∀ p : String × List ContactItem,
        ((if p.1 == cid0 then (p.1, insertItem p.2 r) else p)).1 = p.1 := by
      intro p
      by_cases h : p.1 = cid0 <;> simp [h]
    rw [itemsFor, find?_map_keyed (fun p : String × List ContactItem => p.1) _ hf cid]
    by_cases hc : cid = cid0
    · subst hc
      rw [h0]
      have h1 : itemsFor g cid = some p0.2 := by rw [itemsFor, h0]; rfl
      rw [if_pos rfl, h1]
      simp [hk0]
    · rw [if_neg hc]
      cases h1 : g.find? (fun p => p.1 == cid) with
      | none => simp [itemsFor, h1]
      | some p1 =>
        have hk1 : p1.1 = cid := by
          have := List.find?_some h1
          simpa using this
        have : ¬p1.1 = cid0 := by rw [hk1]; exact hc
        simp [itemsFor, h1, this]
  · simp only [addRow, hany, if_false, Bool.false_eq_true]
    have hnone : g.find? (fun p => p.1 == cid0) = none := find?_none_keyed _ _ hany
    by_cases hc : cid = cid0
    · subst hc
      rw [itemsFor, List.find?_append, hnone]
      simp [itemsFor, hnone, List.find?_cons]
    · rw [itemsFor, List.find?_append]
      cases h1 : g.find? (fun p => p.1 == cid) with
      | none =>
        have : ¬cid0 = cid := fun h => hc h.symm
        simp [itemsFor, h1, List.find?_cons, this, hc]
      | some p1 => simp [itemsFor, h1, hc]

lemma find?_insertItem (items : List ContactItem) (r : ShoppingRow) (pid : String) :
    (insertItem items r).find? (fun it => it.itemID == pid) =
      if pid = r.itemID then
        match items.find? (fun it => it.itemID == r.itemID) with
        | some it => some ⟨it.itemID, it.quantity + r.quantity, it.listIDs ++ [r.listID]⟩
        | none => some ⟨r.itemID, r.quantity, [r.listID]⟩
      else items.find? (fun it => it.itemID == pid) := by
  by_cases hany : items.any (fun it => it.itemID == r.itemID) = true
  · rcases find?_of_any_keyed (fun it : ContactItem => it.itemID) r.itemID hany with ⟨it0, h0, hk0⟩
    simp only [insertItem, hany, if_true]
    have hf : ∀ it : ContactItem,
        ((if it.itemID == r.itemID then
          (⟨it.itemID, it.quantity + r.quantity, it.listIDs ++ [r.listID]⟩ : ContactItem)
        else it)).itemID = it.itemID := by
      intro it
      by_cases h : it.itemID = r.itemID <;> simp [h]
    rw [find?_map_keyed (fun it : ContactItem => it.itemID) _ hf pid]
    by_cases hp : pid = r.itemID
    · subst hp
      rw [h0, if_pos rfl]
      simp [hk0]
    · rw [if_neg hp]
      cases h1 : items.find? (fun it => it.itemID == pid) with
      | none => simp
      | some it1 =>
        have hk1 : it1.itemID = pid := by
          have := List.find?_some h1
          simpa using this
        have : ¬it1.itemID = r.itemID := by rw [hk1]; exact hp
        simp [this]
  · simp only [insertItem, hany, if_false, Bool.false_eq_true]
    have hnone : items.find? (fun it => it.itemID == r.itemID) = none :=
      find?_none_keyed _ _ hany
    by_cases hp : pid = r.itemID
    · subst hp
      rw [List.find?_append, hnone]
      simp [hnone, List.find?_cons]
    · rw [List.find?_append]
      cases h1 : items.find? (fun it => it.itemID == pid) with
      | none =>
        have : ¬r.itemID = pid := fun h => hp h.symm
        simp [h1, List.find?_cons, this, hp]
      | some it1 => simp [h1, hp]

lemma entryFor_addRow (g : List (String × List ContactItem)) (cid0 : String)
    (r : ShoppingRow) (cid pid : String) :
    entryFor (addRow g cid0 r) cid pid =
      if cid = cid0 ∧ pid = r.itemID then
        match entryFor g cid pid with
        | some it => some ⟨it.itemID, it.quantity + r.quantity, it.listIDs ++ [r.listID]⟩
        | none => some ⟨r.itemID, r.quantity, [r.listID]⟩
      else entryFor g cid pid := by
  rw [entryFor, itemsFor_addRow]
  by_cases hc : cid = cid0
  · subst hc
    rw [if_pos rfl]
    cases h0 : itemsFor g cid with
    | none =>
      have he : entryFor g cid pid = none := by rw [entryFor, h0]; rfl
      by_cases hp : pid = r.itemID
      · subst hp
        rw [if_pos ⟨rfl, rfl⟩, he]
        simp [List.find?_cons]
      · rw [if_neg (fun h => hp h.2), he]
        have hrp : ¬r.itemID = pid := fun h => hp h.symm
        simp [List.find?_cons, hrp]
    | some items =>
      have he : entryFor g cid pid = items.find? (fun it => it.itemID == pid) := by
        rw [entryFor, h0]; rfl
      have hb : ((some (insertItem items r)).bind fun its =>
          List.find? (fun it => it.itemID == pid) its) =
          (insertItem items r).find? (fun it => it.itemID == pid) := rfl
      rw [hb, find?_insertItem, he]
      by_cases hp : pid = r.itemID
      · subst hp
        rw [if_pos rfl, if_pos ⟨rfl, rfl⟩]
      · rw [if_neg hp, if_neg (fun h => hp h.2)]
  · rw [if_neg hc, if_neg (fun h => hc h.1), entryFor]

lemma rowsFor_cons (env : GroupEnv) (r : ShoppingRow) (rows : List ShoppingRow)
    (cid pid : String) :
    rowsFor env (r :: rows) cid pid =
      if (r.itemID == pid && decide (env.contactFor r.itemID = LookupRes.found cid)) = true then
        r :: rowsFor env rows cid pid
      else rowsFor env rows cid pid := by
  simp only [rowsFor, List.filter_cons]

lemma groupRows_ok (env : GroupEnv) :
    ∀ (rows : List ShoppingRow) (g : List (String × List ContactItem)),
      (∀ r ∈ rows, isFound (env.contactFor r.itemID) = true) →
      ∃ gOut, groupRows env rows g = .ok gOut ∧
        ∀ cid pid, entryFor gOut cid pid =
          match entryFor g cid pid with
          | some it => some ⟨it.itemID,
              it.quantity + ((rowsFor env rows cid pid).map (fun r => r.quantity)).sum,
              it.listIDs ++ (rowsFor env rows cid pid).map (fun r => r.listID)⟩
          | none =>
            if (rowsFor env rows cid pid).isEmpty then none
            else some ⟨pid, ((rowsFor env rows cid pid).map (fun r => r.quantity)).sum,
              (rowsFor env rows cid pid).map (fun r => r.listID)⟩ := by
  intro rows
  induction rows with
  | nil =>
    intro g _
    refine ⟨g, rfl, ?_⟩
    intro cid pid
    cases hE : entryFor g cid pid with
    | none => simp [rowsFor]
    | some it => cases it with | mk a b c => simp [rowsFor]
  | cons r rows ih =>
    intro g h
    have hr : isFound (env.contactFor r.itemID) = true := h r (List.mem_cons_self r rows)
    cases hcf : env.contactFor r.itemID with
    | noRows => rw [hcf] at hr; simp [isFound] at hr
    | failure e => rw [hcf] at hr; simp [isFound] at hr
    | found c =>
      have hstep : groupRows env (r :: rows) g = groupRows env rows (addRow g c r) := by
        simp [groupRows, hcf]
      obtain ⟨gOut, hok, hentry⟩ :=
        ih (addRow g c r) (fun r' hr' => h r' (List.mem_cons_of_mem _ hr'))
      refine ⟨gOut, by rw [hstep]; exact hok, ?_⟩
      intro cid pid
      rw [hentry cid pid, entryFor_addRow]
      by_cases hcp : cid = c ∧ pid = r.itemID
      · obtain ⟨h1, h2⟩ := hcp
        subst h1
        subst h2
        have hcond : (r.itemID == r.itemID &&
            decide (env.contactFor r.itemID = LookupRes.found cid)) = true := by
          simp [hcf]
        rw [if_pos ⟨rfl, rfl⟩, rowsFor_cons, if_pos hcond]
        cases hE : entryFor g cid r.itemID with
        | some it =>
          simp only [List.map_cons, List.sum_cons]
          simp [add_assoc]
        | none =>
          simp only [List.map_cons, List.sum_cons]
          simp
      · rw [if_neg hcp]
        have hcond : (r.itemID == pid &&
            decide (env.contactFor r.itemID = LookupRes.found cid)) = false := by
          by_cases hp : pid = r.itemID
          · subst hp
            have hc2 : ¬cid = c := fun hcc => hcp ⟨hcc, rfl⟩
            have hc3 : ¬c = cid := fun hcc => hc2 hcc.symm
            simp [hcf, hc3]
          · have : ¬r.itemID = pid := fun hh => hp hh.symm
            simp [this]
        rw [rowsFor_cons, hcond]
        simp only [Bool.false_eq_true, if_false]

lemma groupRows_first_bad (env : GroupEnv) :
    ∀ (rows : List ShoppingRow) (g : List (String × List ContactItem)) (r0 : ShoppingRow),
      rows.find? (fun r => !(isFound (env.contactFor r.itemID))) = some r0 →
      groupRows env rows g = .error ("no contact mapping found for item " ++ r0.itemID) := by
  intro rows
  induction rows with
  | nil => intro g r0 h; simp at h
  | cons r rows ih =>
    intro g r0 h
    rw [List.find?_cons] at h
    by_cases hb : (!(isFound (env.contactFor r.itemID))) = true
    · rw [hb] at h
      simp at h
      subst h
      cases hcf : env.contactFor r.itemID with
      | found c => rw [hcf] at hb; simp [isFound] at hb
      | noRows => simp [groupRows, hcf]
      | failure e => simp [groupRows, hcf]
    · have hb' : (!(isFound (env.contactFor r.itemID))) = false := by simpa using hb
      rw [hb'] at h
      simp at h
      have hf : isFound (env.contactFor r.itemID) = true := by simpa using hb
      cases hcf : env.contactFor r.itemID with
      | noRows => rw [hcf] at hf; simp [isFound] at hf
      | failure e => rw [hcf] at hf; simp [isFound] at hf
      | found c =>
        have hstep : groupRows env (r :: rows) g = groupRows env rows (addRow g c r) := by
          simp [groupRows, hcf]
        rw [hstep]
        exact ih (addRow g c r) r0 h

lemma poLoop_marked (penv : POEnv) :
    ∀ (gs : List (String × List ContactItem)) (ids : List Int)
      (orders : List (String × List POItem)),
      (poLoop penv gs ids orders).marked ≠ [] →
      (poLoop penv gs ids orders).orders.length = orders.length + gs.length ∧
      (poLoop penv gs ids orders).marked =
        ids ++ gs.flatMap (fun p => p.2.flatMap (fun it => it.listIDs)) := by
  intro gs
  induction gs with
  | nil =>
    intro ids orders hm
    by_cases hids : ids.isEmpty
    · exact absurd (by simp [poLoop, hids]) hm
    · simp only [poLoop, hids, Bool.false_eq_true, if_false] at hm ⊢
      cases hmark : penv.markOrdered ids with
      | error e => rw [hmark] at hm; simp at hm
      | ok u => simp [hmark]
  | cons gp rest ih =>
    intro ids orders hm
    obtain ⟨acct, items⟩ := gp
    simp only [poLoop] at hm ⊢
    cases hcid : penv.getContactID acct with
    | error e => rw [hcid] at hm; simp at hm
    | ok cid =>
      rw [hcid] at hm
      dsimp only at hm ⊢
      by_cases hcempty : cid = ""
      · rw [if_pos hcempty] at hm; simp at hm
      · rw [if_neg hcempty] at hm ⊢
        cases hpo : penv.createPO cid (items.map fun it =>
            POItem.mk it.itemID it.quantity (descFor penv it.itemID)) with
        | error e => rw [hpo] at hm; simp at hm
        | ok oid =>
          rw [hpo] at hm
          dsimp only at hm ⊢
          obtain ⟨hlen, hmark⟩ := ih _ _ hm
          constructor
          · rw [hlen]
            simp
            omega
          · rw [hmark]
            simp [List.flatMap_cons, List.append_assoc]

/-- The counterexample input for C6: item `X` HAS a contact mapping, but the
lookup itself fails with an infrastructure error — and the code still fails
with the business message naming the item, so "fails precisely when some
item has no contact mapping; infrastructure lookup failures ... are never
converted into this business message" is false on the code. -/
theorem claim_C6_counterexample :
    GroupShoppingItemsByContact genvInfra rowsInfra =
      .error ("no contact mapping found for item X") ∧
    rowsInfra.all (fun r => !(genvInfra.contactFor r.itemID == LookupRes.noRows)) = true := by
  constructor
  · simp [GroupShoppingItemsByContact, groupRows, genvInfra, rowsInfra]
  · simp [genvInfra, rowsInfra]

/-- C6 (amended): `GroupShoppingItemsByContact` fails — with an error naming
the first offending item, and no groups — precisely when some row's contact
lookup does not yield a mapping, whether the mapping row is absent or the
lookup itself fails (the Go code only checks `err != nil` and folds
infrastructure failures into the same business message); and whenever
grouping fails, the purchase-order batch emits zero purchase orders and
marks nothing. -/
theorem claim_C6_grouping_failure :
    (∀ (env : GroupEnv) (rows : List ShoppingRow),
      (∃ e, GroupShoppingItemsByContact env rows = .error e) ↔
      ∃ r ∈ rows, isFound (env.contactFor r.itemID) = false) ∧
    (∀ (env : GroupEnv) (rows : List ShoppingRow) (r0 : ShoppingRow),
      rows.find? (fun r => !(isFound (env.contactFor r.itemID))) = some r0 →
      GroupShoppingItemsByContact env rows =
        .error ("no contact mapping found for item " ++ r0.itemID)) ∧
    (∀ (genv : GroupEnv) (penv : POEnv) (rows : List ShoppingRow) (e : String),
      GroupShoppingItemsByContact genv rows = .error e →
      (runPurchaseOrderBatch genv penv rows).orders = [] ∧
      (runPurchaseOrderBatch genv penv rows).marked = []) := by
  have hsecond : ∀ (env : GroupEnv) (rows : List ShoppingRow) (r0 : ShoppingRow),
      rows.find? (fun r => !(isFound (env.contactFor r.itemID))) = some r0 →
      GroupShoppingItemsByContact env rows =
        .error ("no contact mapping found for item " ++ r0.itemID) := by
    intro env rows r0 h
    have hne : ¬rows.isEmpty = true := by
      cases rows
      · simp at h
      · simp
    simp only [GroupShoppingItemsByContact, hne, Bool.false_eq_true, if_false]
    exact groupRows_first_bad env rows [] r0 h
  refine ⟨?_, hsecond, ?_⟩
  · intro env rows
    constructor
    · rintro ⟨e, he⟩
      by_contra hno
      push_neg at hno
      have hall : ∀ r ∈ rows, isFound (env.contactFor r.itemID) = true := by
        intro r hr
        cases hx : isFound (env.contactFor r.itemID)
        · exact absurd hx (hno r hr)
        · rfl
      by_cases hemp : rows.isEmpty
      · rw [GroupShoppingItemsByContact, if_pos hemp] at he
        simp at he
      · obtain ⟨gOut, hok, _⟩ := groupRows_ok env rows [] hall
        rw [GroupShoppingItemsByContact, if_neg hemp, hok] at he
        simp at he
    · rintro ⟨r, hmem, hbad⟩
      have : ∃ r0, rows.find? (fun r => !(isFound (env.contactFor r.itemID))) = some r0 := by
        cases hf : rows.find? (fun r => !(isFound (env.contactFor r.itemID))) with
        | none =>
          exfalso
          have := List.find?_eq_none.mp hf r hmem
          simp [hbad] at this
        | some r0 => exact ⟨r0, rfl⟩
      obtain ⟨r0, hr0⟩ := this
      exact ⟨_, hsecond env rows r0 hr0⟩
  · intro genv penv rows e he
    have hne : ¬rows.isEmpty = true := by
      cases hrows : rows
      · subst hrows
        rw [GroupShoppingItemsByContact] at he
        simp at he
      · simp
    rw [runPurchaseOrderBatch, if_neg hne, he]
    exact ⟨rfl, rfl⟩

/-- Witness for C6 (amended): with the infrastructure-failing lookup for item
`X`, grouping fails with the business message naming `X`. -/
theorem claim_C6_witness :
    GroupShoppingItemsByContact genvInfra rowsInfra =
      .error ("no contact mapping found for item " ++ "X") :=
  claim_C6_grouping_failure.2.1 genvInfra rowsInfra ⟨1, "X", 2⟩ (by
    simp [genvInfra, rowsInfra, isFound, List.find?_cons])

/-- C8: when every row's item has a contact mapping, grouping succeeds
(never the error channel) and returns groups keyed by contact id in which
the entry for contact `cid` and item `pid` exists exactly when some
contributing row exists, with quantity the sum of those rows' quantities and
the record-id list collecting every contributing list id in order; on the
spec's four rows this yields exactly two contact groups — `C-AAA` with
`P-001` aggregated to 5 from two records and `P-002` at 4, and `C-BBB` with
`P-003` at 1. -/
theorem claim_C8_grouping_merges (env : GroupEnv) (rows : List ShoppingRow)
    (h : ∀ r ∈ rows, isFound (env.contactFor r.itemID) = true) :
    (∀ e, GroupShoppingItemsByContact env rows ≠ .error e) ∧
    (∀ g, GroupShoppingItemsByContact env rows = .ok g →
      ∀ cid pid, entryFor g cid pid =
        if (rowsFor env rows cid pid).isEmpty then none
        else some ⟨pid, ((rowsFor env rows cid pid).map (fun r => r.quantity)).sum,
          (rowsFor env rows cid pid).map (fun r => r.listID)⟩) ∧
    GroupShoppingItemsByContact genvEx rowsEx =
      .ok [("C-AAA", [⟨"P-001", 5, [1, 2]⟩, ⟨"P-002", 4, [3]⟩]),
           ("C-BBB", [⟨"P-003", 1, [4]⟩])] := by
  refine ⟨?_, ?_, ?_⟩
  · intro e he
    by_cases hemp : rows.isEmpty
    · rw [GroupShoppingItemsByContact, if_pos hemp] at he
      simp at he
    · obtain ⟨gOut, hok, _⟩ := groupRows_ok env rows [] h
      rw [GroupShoppingItemsByContact, if_neg hemp, hok] at he
      simp at he
  · intro g hg cid pid
    by_cases hemp : rows.isEmpty
    · rw [GroupShoppingItemsByContact, if_pos hemp] at hg
      have hrows : rows = [] := by
        cases rows
        · rfl
        · simp at hemp
      subst hrows
      have hgnil : g = [] := by simpa using hg.symm
      subst hgnil
      simp [entryFor, itemsFor, rowsFor]
    · obtain ⟨gOut, hok, hentry⟩ := groupRows_ok env rows [] h
      rw [GroupShoppingItemsByContact, if_neg hemp, hok] at hg
      have hgOut : gOut = g := by simpa using hg
      subst hgOut
      have he0 : entryFor ([] : List (String × List ContactItem)) cid pid = none := rfl
      rw [hentry cid pid, he0]
  · simp [GroupShoppingItemsByContact, groupRows, addRow, insertItem, genvEx, rowsEx]

/-- Witness for C8: the spec's four-row example, with every item mapped,
yields exactly the two contact groups. -/
theorem claim_C8_witness :
    GroupShoppingItemsByContact genvEx rowsEx =
      .ok [("C-AAA", [⟨"P-001", 5, [1, 2]⟩, ⟨"P-002", 4, [3]⟩]),
           ("C-BBB", [⟨"P-003", 1, [4]⟩])] :=
  (claim_C8_grouping_merges genvEx rowsEx (by
    intro r hr
    fin_cases hr <;> rfl)).2.2

/-- C7: shopping-list records are marked ordered only after every contact
group's purchase order has been successfully created — whenever anything at
all is marked, the batch created exactly one purchase order per contact
group and marked exactly the contributing list ids of all groups; and on the
concrete batch where the second contact's purchase order fails, the batch
aborts with the first order already created but no records marked at all. -/
theorem claim_C7_mark_after_all_orders :
    (∀ (genv : GroupEnv) (penv : POEnv) (rows : List ShoppingRow)
        (g : List (String × List ContactItem)),
      GroupShoppingItemsByContact genv rows = .ok g →
      (runPurchaseOrderBatch genv penv rows).marked ≠ [] →
      (runPurchaseOrderBatch genv penv rows).orders.length = g.length ∧
      (runPurchaseOrderBatch genv penv rows).marked =
        g.flatMap (fun p => p.2.flatMap (fun it => it.listIDs))) ∧
    runPurchaseOrderBatch genvEx penvFailB rowsEx =
      ⟨[("ID-C-AAA", [⟨"P-001", 5, "Name of P-001"⟩, ⟨"P-002", 4, "Name of P-002"⟩])],
        [], "Failed to create PO for contact C-BBB: boom", none⟩ := by
  constructor
  · intro genv penv rows g hg hm
    by_cases hemp : rows.isEmpty
    · rw [runPurchaseOrderBatch, if_pos hemp] at hm
      simp at hm
    · rw [runPurchaseOrderBatch, if_neg hemp, hg] at hm ⊢
      obtain ⟨hlen, hmark⟩ := poLoop_marked penv g [] [] hm
      exact ⟨by simpa using hlen, by simpa using hmark⟩
  · simp [runPurchaseOrderBatch, GroupShoppingItemsByContact, groupRows, addRow, insertItem,
      genvEx, rowsEx, poLoop, penvFailB, descFor]

/-- Witness for C7: on the all-success batch over the four-row example, both
purchase orders are created and all four rows are marked. -/
theorem claim_C7_witness :
    (runPurchaseOrderBatch genvEx penvOK rowsEx).orders.length =
      ([("C-AAA", [(⟨"P-001", 5, [1, 2]⟩ : ContactItem), ⟨"P-002", 4, [3]⟩]),
        ("C-BBB", [(⟨"P-003", 1, [4]⟩ : ContactItem)])]).length ∧
    (runPurchaseOrderBatch genvEx penvOK rowsEx).marked =
      ([("C-AAA", [(⟨"P-001", 5, [1, 2]⟩ : ContactItem), ⟨"P-002", 4, [3]⟩]),
        ("C-BBB", [(⟨"P-003", 1, [4]⟩ : ContactItem)])]).flatMap
        (fun p => p.2.flatMap (fun it => it.listIDs)) :=
  claim_C7_mark_after_all_orders.1 genvEx penvOK rowsEx _
    (by simp [GroupShoppingItemsByContact, groupRows, addRow, insertItem, genvEx, rowsEx])
    (by simp [runPurchaseOrderBatch, GroupShoppingItemsByContact, groupRows, addRow, insertItem,
      genvEx, rowsEx, poLoop, penvOK, descFor])

end XeroBOM
